import Mathlib

/-!
# Verification of the gwc-apitest execution engine

A shallow embedding, in Lean 4, of the core of `framework.go` from the
`gwc-apitest` repository: the variable-substitution / type-coercion
subsystem (`replaceVariables`, `replaceMapVariables`, `extractVarName`,
`isNumericString`, `parseNumber`), the value comparison functions
(`valuesEqual`, `toInt64`, `toFloat64`), the path accessor
(`getValueByPath`), capture (`saveVariables`), dependency gating
(`isDependencyPassed`) and the retry loop of `runTestCase`.

Modelling conventions:

* Go strings are modelled as `List Char` (`GoStr`); all the string
  operations the source uses (`strings.Contains`, `strings.Replace`,
  `strings.ReplaceAll`, `strings.HasPrefix` and so on) are defined here
  on `List Char` so that every definition is executable and provable.
* Go `interface{}` values flowing through the engine are modelled by the
  tagged union `GoVal`, one constructor per dynamic type the engine can
  actually see (the types produced by the safejson decoder, the YAML
  loader and the variable store).  `float64` is modelled as an exact
  rational (`Rat`); the claims under verification only ever exercise
  float values and coercions for which `float64` arithmetic is exact, so
  no rounding model is needed.  `fmt.Sprint` of a non-integral float is
  modelled by an injective encoding which agrees with Go on integral
  values; no verified claim depends on the precise text of a
  non-integral float.
* Go map iteration order is unspecified; maps that the engine iterates
  (the variable store, request bodies, expectations, capture maps) are
  modelled as association lists and iterated in list order.
* The HTTP transport, the body reader and the safejson decoder are
  out-of-scope collaborators; they are modelled as oracles: a function
  from the attempt number to that attempt's outcome, and a tag saying
  whether the body bytes decode, decode empty, or fail.
* Statements in the source that can panic at runtime (the nil-response
  dereference after an empty retry loop, malformed `[` segments and
  negative indices in `getValueByPath`) are modelled by `Option`, with
  `none` meaning the Go program panics.
* Wall-clock durations and log output are not modelled; sleeps are
  recorded as trace events instead.
-/

/-- Go strings, modelled as their list of runes. -/
abbrev GoStr := List Char

/-- The character `U+007B` (left curly brace). -/
def lbChar : Char := Char.ofNat 123

/-- The character `U+007D` (right curly brace). -/
def rbChar : Char := Char.ofNat 125

/-- Shorthand turning a Lean string literal into a `GoStr`. -/
def str (s : String) : GoStr := s.toList

/-- True when the string contains neither curly brace. -/
def braceFree (s : GoStr) : Bool := s.all fun c => c ≠ lbChar ∧ c ≠ rbChar

/-- ASCII whitespace recognizer; the identifiers and strings the claims
quantify over contain no exotic Unicode whitespace, so the ASCII subset
of Go's `unicode.IsSpace` suffices. -/
def isSpaceChar (c : Char) : Bool := c = ' ' ∨ c = '\t' ∨ c = '\n' ∨ c = '\r'

/-- Model of `strings.TrimSpace`. -/
def trimStr (s : GoStr) : GoStr :=
  ((s.dropWhile isSpaceChar).reverse.dropWhile isSpaceChar).reverse

/-- Model of `strings.Contains` on rune lists. -/
def strContains : GoStr → GoStr → Bool
  | [], pat => pat.isPrefixOf []
  | c :: r, pat => pat.isPrefixOf (c :: r) || strContains r pat

/-- Fuel-driven worker for `replaceAllStr`; fuel at least the length of
the subject string makes it compute `strings.ReplaceAll`. -/
def replaceAllAux (pat rep : GoStr) : Nat → GoStr → GoStr
  | 0, s => s
  | f + 1, s =>
    match s with
    | [] => []
    | c :: s' =>
      if pat ≠ [] ∧ pat.isPrefixOf (c :: s') then
        rep ++ replaceAllAux pat rep f (List.drop pat.length (c :: s'))
      else
        c :: replaceAllAux pat rep f s'

/-- Model of `strings.ReplaceAll s pat rep` (non-overlapping, left to
right, the replacement text is not rescanned). -/
def replaceAllStr (s pat rep : GoStr) : GoStr := replaceAllAux pat rep s.length s

/-- Fuel-driven worker for `replaceFirstStr`. -/
def replaceFirstAux (pat rep : GoStr) : Nat → GoStr → GoStr
  | 0, s => s
  | f + 1, s =>
    match s with
    | [] => []
    | c :: s' =>
      if pat ≠ [] ∧ pat.isPrefixOf (c :: s') then
        rep ++ List.drop pat.length (c :: s')
      else
        c :: replaceFirstAux pat rep f s'

/-- Model of `strings.Replace s pat rep 1`: replace the first occurrence
only. -/
def replaceFirstStr (s pat rep : GoStr) : GoStr := replaceFirstAux pat rep s.length s

/-- Decimal digit characters for `fmt.Sprintf` with the `d` verb. -/
def digitChar (n : Nat) : Char :=
  match n with
  | 0 => '0' | 1 => '1' | 2 => '2' | 3 => '3' | 4 => '4'
  | 5 => '5' | 6 => '6' | 7 => '7' | 8 => '8' | _ => '9'

/-- Numeric value of a decimal digit character. -/
def digitVal (c : Char) : Nat :=
  match c with
  | '0' => 0 | '1' => 1 | '2' => 2 | '3' => 3 | '4' => 4
  | '5' => 5 | '6' => 6 | '7' => 7 | '8' => 8 | '9' => 9
  | _ => 99

/-- Fuel-driven worker producing the decimal digits of a natural number,
most significant first; fuel above the number itself is always enough. -/
def natStrAux : Nat → Nat → GoStr
  | 0, _ => []
  | f + 1, n =>
    if n < 10 then [digitChar n]
    else natStrAux f (n / 10) ++ [digitChar (n % 10)]

/-- Decimal rendering of a natural number, as Go's `fmt.Sprintf` with the
`d` verb renders unsigned integers. -/
def natStr (n : Nat) : GoStr := natStrAux (n + 1) n

/-- Decimal rendering of an integer, as Go's `fmt.Sprintf` with the `d`
verb renders signed integers. -/
def intStr (i : Int) : GoStr :=
  if i < 0 then '-' :: natStr i.natAbs else natStr i.toNat

/-- Value of a digit list read most significant first. -/
def valOfDigits (ds : GoStr) : Nat := ds.foldl (fun a c => 10 * a + digitVal c) 0

/-- One bound of the signed 64-bit range. -/
def int64Max : Int := 9223372036854775807

/-- The other bound of the signed 64-bit range. -/
def int64Min : Int := -9223372036854775808

/-- Membership of the signed 64-bit range. -/
def inInt64Range (i : Int) : Prop := int64Min ≤ i ∧ i ≤ int64Max

instance (i : Int) : Decidable (inInt64Range i) := by
  unfold inInt64Range; infer_instance

/-- Model of `fmt.Sscanf(s, "%d", &i)` into an `int64`: skip leading
whitespace, read an optional sign and then a nonempty maximal digit run
(later characters are ignored, as `Sscanf` ignores unconsumed input),
failing on overflow of the signed 64-bit range. -/
def sscanfD (s : GoStr) : Option Int :=
  let s1 := s.dropWhile isSpaceChar
  let signAndRest : Bool × GoStr :=
    match s1 with
    | '-' :: r => (true, r)
    | '+' :: r => (false, r)
    | r => (false, r)
  let ds := signAndRest.2.takeWhile Char.isDigit
  if ds = [] then none
  else
    let v : Int := if signAndRest.1 then -(valOfDigits ds : Int) else (valOfDigits ds : Int)
    if inInt64Range v then some v else none

section DecimalLemmas

theorem digitVal_digitChar {n : Nat} (h : n < 10) : digitVal (digitChar n) = n := by
  interval_cases n <;> rfl

theorem digitChar_isDigit {n : Nat} (h : n < 10) : (digitChar n).isDigit = true := by
  interval_cases n <;> rfl

theorem digitChar_ne_braces {n : Nat} (h : n < 10) :
    digitChar n ≠ lbChar ∧ digitChar n ≠ rbChar := by
  interval_cases n <;> exact ⟨by decide, by decide⟩

theorem valOfDigits_append (ds : GoStr) (c : Char) :
    valOfDigits (ds ++ [c]) = 10 * valOfDigits ds + digitVal c := by
  simp [valOfDigits, List.foldl_append]

theorem natStrAux_spec : ∀ f n, n < f →
    valOfDigits (natStrAux f n) = n ∧ natStrAux f n ≠ [] ∧
    ∀ c ∈ natStrAux f n, c.isDigit = true := by
  intro f
  induction f with
  | zero => intro n h; omega
  | succ f ih =>
    intro n h
    by_cases h10 : n < 10
    · refine ⟨?_, by simp [natStrAux, h10], ?_⟩
      · simp [natStrAux, h10, valOfDigits, digitVal_digitChar h10]
      · intro c hc
        simp [natStrAux, h10] at hc
        subst hc; exact digitChar_isDigit h10
    · have hdiv : n / 10 < f := by omega
      obtain ⟨hv, hne, hd⟩ := ih (n / 10) hdiv
      have hlt : n % 10 < 10 := Nat.mod_lt _ (by omega)
      refine ⟨?_, by simp [natStrAux, h10], ?_⟩
      · simp only [natStrAux, h10, if_false]
        rw [valOfDigits_append, hv, digitVal_digitChar hlt]
        omega
      · intro c hc
        simp only [natStrAux, h10, if_false, List.mem_append, List.mem_singleton] at hc
        rcases hc with hc | hc
        · exact hd c hc
        · subst hc; exact digitChar_isDigit hlt

theorem valOfDigits_natStr (n : Nat) : valOfDigits (natStr n) = n :=
  (natStrAux_spec (n + 1) n (by omega)).1

theorem natStr_ne_nil (n : Nat) : natStr n ≠ [] :=
  (natStrAux_spec (n + 1) n (by omega)).2.1

theorem natStr_digits (n : Nat) : ∀ c ∈ natStr n, c.isDigit = true :=
  (natStrAux_spec (n + 1) n (by omega)).2.2

theorem natStr_injective : Function.Injective natStr := by
  intro m n h
  have := valOfDigits_natStr m
  rw [h, valOfDigits_natStr] at this
  omega

theorem digit_not_brace {c : Char} (h : c.isDigit = true) : c ≠ lbChar ∧ c ≠ rbChar := by
  constructor <;> rintro rfl <;> simp [Char.isDigit, lbChar, rbChar, Char.ofNat] at h <;> revert h <;> decide

theorem braceFree_natStr (n : Nat) : braceFree (natStr n) = true := by
  simp only [braceFree, List.all_eq_true]
  intro c hc
  have := digit_not_brace (natStr_digits n c hc)
  simp [this.1, this.2]

theorem braceFree_intStr (i : Int) : braceFree (intStr i) = true := by
  unfold intStr
  by_cases h : i < 0
  · simp only [h, if_true, braceFree, List.all_cons, Bool.and_eq_true]
    exact ⟨by decide, by simpa [braceFree] using braceFree_natStr i.natAbs⟩
  · simp only [h, if_false]; exact braceFree_natStr _

theorem digit_not_space {c : Char} (h : c.isDigit = true) : isSpaceChar c = false := by
  simp only [isSpaceChar, decide_eq_false_iff_not]
  rintro (rfl | rfl | rfl | rfl) <;> simp [Char.isDigit] at h <;> revert h <;> decide

theorem takeWhile_all {p : Char → Bool} (s : GoStr) (h : ∀ c ∈ s, p c = true) :
    s.takeWhile p = s := by
  induction s with
  | nil => rfl
  | cons c r ih =>
    rw [List.takeWhile_cons, h c (by simp)]
    simp [ih fun x hx => h x (by simp [hx])]

theorem dropWhile_none {p : Char → Bool} :
    ∀ s : GoStr, (∀ c ∈ s, p c = false) → s.dropWhile p = s := by
  intro s h
  cases s with
  | nil => rfl
  | cons c r => rw [List.dropWhile_cons, h c (by simp)]; simp

/-- Scanning the decimal rendering of an in-range integer with the `d`
verb recovers exactly that integer. -/
theorem sscanfD_intStr (i : Int) (h : inInt64Range i) : sscanfD (intStr i) = some i := by
  unfold sscanfD intStr
  by_cases hneg : i < 0
  · simp only [hneg, if_true]
    have hds : ('-' :: natStr i.natAbs).dropWhile isSpaceChar = '-' :: natStr i.natAbs := by
      rw [List.dropWhile_cons]; simp [isSpaceChar]
    rw [hds]
    simp only []
    rw [takeWhile_all (natStr i.natAbs) (fun c hc => natStr_digits _ c hc)]
    have hne := natStr_ne_nil i.natAbs
    simp only [hne, if_false]
    rw [valOfDigits_natStr]
    have hv : -(i.natAbs : Int) = i := by omega
    simp only [hv, h, if_pos]
  · simp only [hneg, if_false]
    have h0 : ∀ c ∈ natStr i.toNat, isSpaceChar c = false :=
      fun c hc => digit_not_space (natStr_digits _ c hc)
    rw [dropWhile_none _ h0]
    have hshape : ∃ d ds, natStr i.toNat = d :: ds ∧ d.isDigit = true := by
      cases hn : natStr i.toNat with
      | nil => exact absurd hn (natStr_ne_nil _)
      | cons d ds => exact ⟨d, ds, rfl, natStr_digits _ d (by rw [hn]; simp)⟩
    obtain ⟨d, ds, heq, hd⟩ := hshape
    have hdm : d ≠ '-' ∧ d ≠ '+' := by
      constructor <;> rintro rfl <;> simp [Char.isDigit] at hd <;> revert hd <;> decide
    rw [heq]
    have hmatch : (match d :: ds with
        | '-' :: r => ((true : Bool), r)
        | '+' :: r => ((false : Bool), r)
        | r => ((false : Bool), r)) = ((false : Bool), d :: ds) := by
      rcases hdm with ⟨h1, h2⟩
      split
      · next r heq2 => rw [List.cons.injEq] at heq2; exact absurd heq2.1 h1
      · next r heq2 => rw [List.cons.injEq] at heq2; exact absurd heq2.1 h2
      · rfl
    rw [hmatch]
    simp only []
    rw [← heq, takeWhile_all (natStr i.toNat) (fun c hc => natStr_digits _ c hc)]
    have hne := natStr_ne_nil i.toNat
    simp only [hne, if_false]
    rw [valOfDigits_natStr]
    have hv : ((i.toNat : Nat) : Int) = i := by omega
    simp only [show (false = true) = False by simp, if_false, hv, h, if_pos]

end DecimalLemmas

/-! ## The dynamic value model

`GoVal` is the tagged union of the dynamic (`interface` typed) values the
engine can observe: values decoded by safejson (`nil`, `bool`, `int64`,
`uint64`, `float64`, `string`, `[]any`, `map[string]any`), values loaded
from YAML configuration (`int`, `bool`, `float64`, `string`, nested maps
and lists), and values put into the variable store by captures.  The
extra integer breadths `int32`, `uint`, `uint32` appear in the source's
type switches and are included for faithfulness. -/

inductive GoVal where
  | goNil
  | goBool (b : Bool)
  | goInt64 (i : Int)
  | goUInt64 (n : Nat)
  | goInt (i : Int)
  | goInt32 (i : Int)
  | goUInt (n : Nat)
  | goUInt32 (n : Nat)
  | goFloat (q : Rat)
  | goStr (s : GoStr)
  | goList (xs : List GoVal)
  | goMap (m : List (GoStr × GoVal))

open GoVal

/-- The dynamic type tag, modelling what distinguishes the strings that
`fmt.Sprintf` with the `T` verb produces for each case. -/
inductive GoKind where
  | kNil | kBool | kInt64 | kUInt64 | kInt | kInt32 | kUInt | kUInt32
  | kFloat64 | kStr | kList | kMap
deriving DecidableEq

/-- Dynamic type of a value. -/
def goKind : GoVal → GoKind
  | goNil => .kNil
  | goBool _ => .kBool
  | goInt64 _ => .kInt64
  | goUInt64 _ => .kUInt64
  | goInt _ => .kInt
  | goInt32 _ => .kInt32
  | goUInt _ => .kUInt
  | goUInt32 _ => .kUInt32
  | goFloat _ => .kFloat64
  | goStr _ => .kStr
  | goList _ => .kList
  | goMap _ => .kMap

/-- Lexicographic order on rune lists, modelling Go's byte order on the
(ASCII) keys the claims exercise; `fmt` prints map keys in sorted
order. -/
def lexLe : GoStr → GoStr → Bool
  | [], _ => true
  | _ :: _, [] => false
  | a :: s, b :: t => if a = b then lexLe s t else decide (a.toNat < b.toNat)

/-- Insertion step for sorting printed map entries by key. -/
def insertByKey (p : GoStr × GoStr) : List (GoStr × GoStr) → List (GoStr × GoStr)
  | [] => [p]
  | q :: r => if lexLe p.1 q.1 then p :: q :: r else q :: insertByKey p r

/-- Insertion sort of printed map entries by key. -/
def sortByKey : List (GoStr × GoStr) → List (GoStr × GoStr)
  | [] => []
  | p :: r => insertByKey p (sortByKey r)

/-- Space-separated concatenation, as `fmt` joins list elements and map
entries. -/
def joinSpace : List GoStr → GoStr
  | [] => []
  | [s] => s
  | s :: r => s ++ ' ' :: joinSpace r

/-- Rendering of a non-integral float.  Go prints the shortest decimal
that round-trips; that rendering is injective on non-integral doubles,
and this model keeps exactly the properties the engine relies on — it is
injective and contains a character (the slash) that no integer rendering
contains.  No verified claim inspects the text of a non-integral
float. -/
def floatSprintNonInt (q : Rat) : GoStr := intStr q.num ++ '/' :: natStr q.den

mutual

/-- Model of `fmt.Sprint` (the `v` verb) on the engine's dynamic
values. -/
def goSprint : GoVal → GoStr
  | goNil => str "<nil>"
  | goBool true => str "true"
  | goBool false => str "false"
  | goInt64 i => intStr i
  | goUInt64 n => natStr n
  | goInt i => intStr i
  | goInt32 i => intStr i
  | goUInt n => natStr n
  | goUInt32 n => natStr n
  | goFloat q => if q.den = 1 then intStr q.num else floatSprintNonInt q
  | goStr s => s
  | goList xs => '[' :: (joinSpace (goSprintList xs) ++ [']'])
  | goMap m => str "map[" ++ joinSpace ((sortByKey (goSprintEntries m)).map fun p => p.1 ++ ':' :: p.2) ++ [']']

/-- `fmt.Sprint` of each element of a list. -/
def goSprintList : List GoVal → List GoStr
  | [] => []
  | v :: vs => goSprint v :: goSprintList vs

/-- `fmt.Sprint` of each value of a map, keyed. -/
def goSprintEntries : List (GoStr × GoVal) → List (GoStr × GoStr)
  | [] => []
  | (k, v) :: r => (k, goSprint v) :: goSprintEntries r

end

/-- Model of the source's `toInt64`: the type switch converting a dynamic
value to `int64` where that loses nothing.  A `uint64` above the signed
range is rejected; a `float64` converts only when integral (in the
source: when it equals the round trip through `int64`, which for an
exactly represented value means integrality); a string is scanned with
the `d` verb. -/
def toInt64 : GoVal → Option Int
  | goInt64 i => some i
  | goUInt64 n => if (n : Int) ≤ int64Max then some (n : Int) else none
  | goInt i => some i
  | goInt32 i => some i
  | goUInt n => some (n : Int)
  | goUInt32 n => some (n : Int)
  | goFloat q => if q.den = 1 then some q.num else none
  | goStr s => sscanfD s
  | _ => none

/-- Model of the source's `toFloat64`: numeric kinds widen to float;
strings and the rest do not.  The widening is modelled exactly (the
claims never exercise magnitudes where `float64` widening rounds). -/
def toFloat64 : GoVal → Option Rat
  | goFloat q => some q
  | goInt i => some (i : Rat)
  | goInt64 i => some (i : Rat)
  | goInt32 i => some (i : Rat)
  | goUInt64 n => some (n : Rat)
  | goUInt n => some (n : Rat)
  | goUInt32 n => some (n : Rat)
  | _ => none

/-- Model of the source's `valuesEqual`: same dynamic type compares by
`fmt.Sprint` text; otherwise both sides are tried as `int64`, then as
`float64`, then compared as `fmt.Sprint` text. -/
def valuesEqual (a b : GoVal) : Bool :=
  if goKind a = goKind b then goSprint a = goSprint b
  else
    match toInt64 a, toInt64 b with
    | some i, some j => i = j
    | _, _ =>
      match toFloat64 a, toFloat64 b with
      | some x, some y => x = y
      | _, _ => goSprint a = goSprint b

/-! ## The template resolver -/

/-- The variable store: `r.variables`, a Go `map[string]any`, modelled as
an association list iterated in list order. -/
abbrev VarStore := List (GoStr × GoVal)

/-- Association lookup with Go map semantics (first match). -/
def lookupStr {α : Type} : List (GoStr × α) → GoStr → Option α
  | [], _ => none
  | (k, v) :: r, key => if k = key then some v else lookupStr r key

/-- Go map assignment `m[k] = v`: replace the binding if present,
otherwise add it. -/
def storeSet : VarStore → GoStr → GoVal → VarStore
  | [], k, v => [(k, v)]
  | (k', w) :: r, k, v => if k' = k then (k, v) :: r else (k', w) :: storeSet r k v

/-- The placeholder text of a variable name, as built by the source with
`fmt.Sprintf` from the name. -/
def pl (name : GoStr) : GoStr := lbChar :: lbChar :: (name ++ [rbChar, rbChar])

/-- The reserved generator placeholder. -/
def uuidPat : GoStr := pl (str "uuid")

/-- Fixed six-decimal rendering of a non-integral float, modelling
`fmt.Sprintf` with the `f` verb.  Mathlib's `round` rounds ties away
from even where Go rounds them to even; no verified claim evaluates this
function, so the tie behaviour is immaterial. -/
def fmtFloatF (q : Rat) : GoStr :=
  let core : Rat → GoStr := fun p =>
    let n : Int := round (p * 1000000)
    let ds := natStr (n.toNat % 1000000)
    natStr (n.toNat / 1000000) ++ '.' :: (List.replicate (6 - ds.length) '0' ++ ds)
  if q < 0 then '-' :: core (-q) else core q

/-- The per-type stringification inside `replaceVariables` (the inner
type switch): integer breadths print with the `d` verb, an integral
float prints as the integer it equals (the source converts to `int64`
first; conversion of an out-of-range float is not exercised by any
claim), any other float prints with the `f` verb, and the default arm is
`fmt.Sprint`. -/
def strValue : GoVal → GoStr
  | goInt64 i => intStr i
  | goUInt64 n => natStr n
  | goInt i => intStr i
  | goInt32 i => intStr i
  | goUInt n => natStr n
  | goUInt32 n => natStr n
  | goFloat q => if q.den = 1 then intStr q.num else fmtFloatF q
  | v => goSprint v

/-- The `uuid` generator loop of `replaceVariables`: while the string
contains the reserved placeholder, replace its first occurrence with the
next generated identifier.  The generator is an oracle `gen` indexed by
a counter.  The loop is fuel-driven; for any generator whose output
cannot re-create the placeholder (every real UUID string) the fuel
passed by `replaceVariables` is sufficient, and claims are proved under
that hypothesis. -/
def uuidLoop (gen : Nat → GoStr) : Nat → GoStr → Nat → GoStr × Nat
  | 0, s, c => (s, c)
  | f + 1, s, c =>
    if strContains s uuidPat then
      uuidLoop gen f (replaceFirstStr s uuidPat (gen c)) (c + 1)
    else (s, c)

/-- The custom-variable loop of `replaceVariables`: for each store entry
whose placeholder occurs in the working string, replace all its
occurrences with the entry's stringification. -/
def substEntries : VarStore → GoStr → GoStr
  | [], s => s
  | (k, v) :: r, s =>
    substEntries r (if strContains s (pl k) then replaceAllStr s (pl k) (strValue v) else s)

/-- Model of the source's `replaceVariables`: the `uuid` loop, then the
store loop.  The pair threads the generator counter. -/
def replaceVariables (gen : Nat → GoStr) (vars : VarStore) (s : GoStr) (c : Nat) : GoStr × Nat :=
  let u := uuidLoop gen (s.length + 1) s c
  (substEntries vars u.1, u.2)

/-- Model of the source's `extractVarName`: strip one leading `{{` and
one trailing `}}`, trim space, and reject an inner text that still
contains either brace pair; the empty string signals failure, exactly as
in the source. -/
def extractVarName (s : GoStr) : GoStr :=
  if ([lbChar, lbChar] : GoStr).isPrefixOf s ∧ ([rbChar, rbChar] : GoStr).isSuffixOf s then
    let varName := trimStr ((s.drop 2).dropLast.dropLast)
    if strContains varName [lbChar, lbChar] ∨ strContains varName [rbChar, rbChar] then []
    else varName
  else []

/-- The character set of the source's `isNumericString` away from the
first position. -/
def numericChar (c : Char) : Bool := c.isDigit || c = '.' || c = 'e' || c = 'E' || c = '+'

/-- Model of the source's `isNumericString`: nonempty, a leading minus is
allowed, every other character must be a digit, a dot, an exponent
letter or a plus. -/
def isNumericString : GoStr → Bool
  | [] => false
  | c :: r => (c = '-' || numericChar c) && r.all numericChar

/-- Model of `fmt.Sscanf(s, "%f", &f)`: skip whitespace, optional sign,
integer digits, optional fraction, optional exponent; at least one
mantissa digit is required.  The value is computed exactly in `Rat`;
rounding to a `float64` is not modelled because no verified claim
exercises a value where they differ. -/
def sscanfF (s : GoStr) : Option Rat :=
  let s1 := s.dropWhile isSpaceChar
  let signAndRest : Bool × GoStr :=
    match s1 with
    | '-' :: r => (true, r)
    | '+' :: r => (false, r)
    | r => (false, r)
  let ds := signAndRest.2.takeWhile Char.isDigit
  let s3 := signAndRest.2.dropWhile Char.isDigit
  let fracAndRest : GoStr × GoStr :=
    match s3 with
    | '.' :: r => (r.takeWhile Char.isDigit, r.dropWhile Char.isDigit)
    | r => ([], r)
  if ds = [] ∧ fracAndRest.1 = [] then none
  else
    let mant : Rat :=
      (valOfDigits ds : Rat) + (valOfDigits fracAndRest.1 : Rat) / ((10 : Rat) ^ fracAndRest.1.length)
    let expPart : Option Int :=
      match fracAndRest.2 with
      | 'e' :: r =>
        match r with
        | '-' :: r2 => let es := r2.takeWhile Char.isDigit
                       if es = [] then none else some (-(valOfDigits es : Int))
        | '+' :: r2 => let es := r2.takeWhile Char.isDigit
                       if es = [] then none else some (valOfDigits es : Int)
        | r2 => let es := r2.takeWhile Char.isDigit
                if es = [] then none else some (valOfDigits es : Int)
      | 'E' :: r =>
        match r with
        | '-' :: r2 => let es := r2.takeWhile Char.isDigit
                       if es = [] then none else some (-(valOfDigits es : Int))
        | '+' :: r2 => let es := r2.takeWhile Char.isDigit
                       if es = [] then none else some (valOfDigits es : Int)
        | r2 => let es := r2.takeWhile Char.isDigit
                if es = [] then none else some (valOfDigits es : Int)
      | _ => some 0
    match expPart with
    | none => none
    | some k =>
      let v := mant * (10 : Rat) ^ k
      some (if signAndRest.1 then -v else v)

/-- Model of the source's `parseNumber`: scan with the `d` verb first and
return an `int64`; otherwise scan with the `f` verb and return an
`int64` when the value is integral (the source compares the float to its
round trip through `int64`), else a `float64`. -/
def parseNumber (s : GoStr) : Option GoVal :=
  match sscanfD s with
  | some i => some (goInt64 i)
  | none =>
    match sscanfF s with
    | some q => if q.den = 1 then some (goInt64 q.num) else some (goFloat q)
    | none => none

/-- The string-field arm of `replaceMapVariables`: when substitution
changed the text, tier one looks the whole-field placeholder up in the
store and keeps the stored value; tier two reparses numeric-looking
text; otherwise the replaced text stays a string. -/
def resolveStringField (vars : VarStore) (orig replaced : GoStr) : GoVal :=
  if replaced = orig then goStr replaced
  else
    match (if extractVarName orig ≠ [] then lookupStr vars (extractVarName orig) else none) with
    | some w => w
    | none =>
      if isNumericString replaced then
        match parseNumber replaced with
        | some num => num
        | none => goStr replaced
      else goStr replaced

/-- The list arm of `replaceMapVariables`: only the numeric-reparse tier
and the textual tier exist for list elements in the source. -/
def resolveListElem (orig replaced : GoStr) : GoVal :=
  if replaced ≠ orig ∧ isNumericString replaced then
    match parseNumber replaced with
    | some num => num
    | none => goStr replaced
  else goStr replaced

/-- Elementwise handling of a `[]any` value in a request body: string
elements are substituted and maybe reparsed, any other element is kept
as is.  The counter threads left to right. -/
def resolveListElems (gen : Nat → GoStr) (vars : VarStore) :
    List GoVal → Nat → List GoVal × Nat
  | [], c => ([], c)
  | goStr s :: rest, c =>
    let r := replaceVariables gen vars s c
    let tail := resolveListElems gen vars rest r.2
    (resolveListElem s r.1 :: tail.1, tail.2)
  | v :: rest, c =>
    let tail := resolveListElems gen vars rest c
    (v :: tail.1, tail.2)

mutual

/-- Model of the source's `replaceMapVariables`: walk the body map; a
string field goes through `resolveStringField`, a nested map recurses, a
list goes through `resolveListElems`, anything else is kept. -/
def replaceMapVariables (gen : Nat → GoStr) (vars : VarStore) :
    List (GoStr × GoVal) → Nat → List (GoStr × GoVal) × Nat
  | [], c => ([], c)
  | (k, v) :: rest, c =>
    let hd := replaceBodyValue gen vars v c
    let tl := replaceMapVariables gen vars rest hd.2
    ((k, hd.1) :: tl.1, tl.2)

/-- One body value under `replaceMapVariables`. -/
def replaceBodyValue (gen : Nat → GoStr) (vars : VarStore) :
    GoVal → Nat → GoVal × Nat
  | goStr s, c =>
    let r := replaceVariables gen vars s c
    (resolveStringField vars s r.1, r.2)
  | goMap m, c =>
    let r := replaceMapVariables gen vars m c
    (goMap r.1, r.2)
  | goList xs, c =>
    let r := resolveListElems gen vars xs c
    (goList r.1, r.2)
  | v, c => (v, c)

end

/-! ## The path accessor -/

/-- Model of `strings.Split` with a one-character separator. -/
def splitOnChar (sep : Char) : GoStr → List GoStr
  | [] => [[]]
  | c :: r =>
    match splitOnChar sep r with
    | [] => [[]]
    | h :: t => if c = sep then [] :: h :: t else (c :: h) :: t

/-- Index of the first occurrence of a character, modelling
`strings.Index` with a one-character pattern. -/
def idxOfChar (c : Char) : GoStr → Option Nat
  | [] => none
  | d :: r => if d = c then some 0 else (idxOfChar c r).map (· + 1)

/-- Segment slicing in `getValueByPath`: the text before the first `[`
and the text between `[` and the first `]`.  The source slices with the
raw indices, which panics (`none` here) when the segment has no `]` or
the first `]` sits before the `[`. -/
def parseIdxSeg (seg : GoStr) : Option (GoStr × GoStr) :=
  match idxOfChar '[' seg with
  | none => none
  | some i =>
    match idxOfChar ']' seg with
    | none => none
    | some j =>
      if i + 1 ≤ j then some (seg.take i, (seg.drop (i + 1)).take (j - (i + 1)))
      else none

/-- The segment walk of `getValueByPath`.  A keyed segment reads the map
key (a missing key yields Go's zero value `nil`) or ends the walk with
`nil` when the current value is not a map.  An indexed segment first
reads the map key if the current value is a map, then indexes only if
the value now at hand is a list: a non-negative index inside the range
selects the element, one beyond the range ends the walk with `nil`, a
negative index panics; when the value is not a list the index is
ignored and the walk continues with the keyed value.  `none` models a
panic, `some v` models the function returning `v`. -/
def walkSegs : List GoStr → GoVal → Option GoVal
  | [], cur => some cur
  | seg :: rest, cur =>
    if '[' ∈ seg then
      match parseIdxSeg seg with
      | none => none
      | some (arrayPart, indexPart) =>
        let cur1 := match cur with
          | goMap m => (lookupStr m arrayPart).getD goNil
          | _ => cur
        match cur1 with
        | goList arr =>
          let idx : Int := (sscanfD indexPart).getD 0
          if idx < 0 then none
          else if h : idx.toNat < arr.length then walkSegs rest (arr.get ⟨idx.toNat, h⟩)
          else some goNil
        | _ => walkSegs rest cur1
    else
      match cur with
      | goMap m => walkSegs rest ((lookupStr m seg).getD goNil)
      | _ => some goNil

/-- Model of the source's `getValueByPath`: split the path on dots and
walk the segments starting from the response map. -/
def getValueByPath (path : GoStr) (data : List (GoStr × GoVal)) : Option GoVal :=
  walkSegs (splitOnChar '.' path) (goMap data)

/-! ## Validation -/

/-- One assertion from configuration. -/
structure AssertionCfg where
  path : GoStr
  op : GoStr
  value : GoVal

/-- The expectation of a test case. -/
structure ExpectCfg where
  statusCode : Int
  responseBody : List (GoStr × GoVal)
  assertions : List AssertionCfg

/-- The operator dispatch of `executeAssertion` after the actual value
and the (template-resolved) expected operand are at hand.  Error texts
are abbreviated; the claims depend only on which branch errs. -/
def applyOp (op : GoStr) (value expectedValue : GoVal) : Option GoStr :=
  if op = str "equals" then
    if valuesEqual value expectedValue then none
    else some (str "assertion failed: should equal")
  else if op = str "notEquals" then
    if valuesEqual value expectedValue then some (str "assertion failed: should not equal")
    else none
  else if op = str "contains" then
    if strContains (goSprint value) (goSprint expectedValue) then none
    else some (str "assertion failed: should contain")
  else if op = str "startsWith" then
    if (goSprint expectedValue).isPrefixOf (goSprint value) then none
    else some (str "assertion failed: should start with")
  else if op = str "notEmpty" then
    match value with
    | goNil => some (str "assertion failed: should not be empty")
    | goStr [] => some (str "assertion failed: should not be empty")
    | _ => none
  else if op = str "isArray" then
    match value with
    | goList _ => none
    | _ => some (str "assertion failed: should be array")
  else if op = str "greaterThan" then
    match toFloat64 value, toFloat64 expectedValue with
    | none, _ => some (str "assertion failed: should be number")
    | some _, none => some (str "assertion failed: expected value should be number")
    | some a, some b => if a ≤ b then some (str "assertion failed: should be greater than") else none
  else if op = str "greaterThanOrEqual" then
    match toFloat64 value, toFloat64 expectedValue with
    | none, _ => some (str "assertion failed: should be number")
    | some _, none => some (str "assertion failed: expected value should be number")
    | some a, some b => if a < b then some (str "assertion failed: should be gte") else none
  else if op = str "lessThan" then
    match toFloat64 value, toFloat64 expectedValue with
    | none, _ => some (str "assertion failed: should be number")
    | some _, none => some (str "assertion failed: expected value should be number")
    | some a, some b => if b ≤ a then some (str "assertion failed: should be less than") else none
  else some (str "unknown operator")

/-- Model of the source's `executeAssertion`: fetch the actual value by
path (a malformed path panics, modelled by `none`), template-resolve a
string expected operand, dispatch on the operator; the counter threads
through template resolution. -/
def executeAssertion (gen : Nat → GoStr) (vars : VarStore) (a : AssertionCfg)
    (data : List (GoStr × GoVal)) (c : Nat) : Option (Option GoStr × Nat) :=
  match getValueByPath a.path data with
  | none => none
  | some value =>
    let er : GoVal × Nat :=
      match a.value with
      | goStr s =>
        let r := replaceVariables gen vars s c
        (goStr r.1, r.2)
      | v => (v, c)
    some (applyOp a.op value er.1, er.2)

/-- The `response_body` partial-field loop of `validateExpectation`: a
missing key errs, an expected `null` requires an actual `null`, and
every other expected value compares by `fmt.Sprint` text. -/
def checkRespBody : List (GoStr × GoVal) → List (GoStr × GoVal) → Option GoStr
  | [], _ => none
  | (key, expected) :: rest, respData =>
    match lookupStr respData key with
    | none => some (str "field not found in response")
    | some actual =>
      match expected with
      | goNil =>
        match actual with
        | goNil => checkRespBody rest respData
        | _ => some (str "field expected null")
      | _ =>
        if goSprint actual = goSprint expected then checkRespBody rest respData
        else some (str "field mismatch")

/-- The assertion loop of `validateExpectation`: stop at the first
failing assertion; a panic anywhere propagates. -/
def runAssertions (gen : Nat → GoStr) (vars : VarStore) :
    List AssertionCfg → List (GoStr × GoVal) → Nat → Option (Option GoStr × Nat)
  | [], _, c => some (none, c)
  | a :: rest, data, c =>
    match executeAssertion gen vars a data c with
    | none => none
    | some (some e, c') => some (some e, c')
    | some (none, c') => runAssertions gen vars rest data c'

/-- Model of the source's `validateExpectation`: the status-code check
short-circuits, then the partial-field check, then the assertion
list. -/
def validateExpectation (gen : Nat → GoStr) (vars : VarStore) (expect : ExpectCfg)
    (statusCode : Int) (respData : List (GoStr × GoVal)) (c : Nat) :
    Option (Option GoStr × Nat) :=
  if expect.statusCode ≠ 0 ∧ expect.statusCode ≠ statusCode then
    some (some (str "status code mismatch"), c)
  else
    match checkRespBody expect.responseBody respData with
    | some e => some (some e, c)
    | none => runAssertions gen vars expect.assertions respData c

/-! ## Capture, dependency gating and the runner -/

/-- Model of the source's `saveVariables`: for each capture entry, fetch
the value at the path (absent resolves to `nil`, exactly like a present
`null`; a malformed path panics, modelled by `none`) and bind it in the
store. -/
def saveVariables : List (GoStr × GoStr) → List (GoStr × GoVal) → VarStore → Option VarStore
  | [], _, vars => some vars
  | (n, p) :: rest, respData, vars =>
    match getValueByPath p respData with
    | none => none
    | some v => saveVariables rest respData (storeSet vars n v)

/-- A decoded response snapshot as stored in a result. -/
structure RespSnapshot where
  statusCode : Int
  body : List (GoStr × GoVal)
  headers : List (GoStr × List GoStr)

/-- One test result, without the wall-clock duration (never inspected by
a claim). -/
structure ResultRec where
  scenario : GoStr
  name : GoStr
  passed : Bool
  error : GoStr
  response : Option RespSnapshot

/-- Model of the source's `isDependencyPassed`: the first result whose
name matches decides; no match means not passed. -/
def isDependencyPassed : List ResultRec → GoStr → Bool
  | [], _ => false
  | r :: rest, n => if r.name = n then r.passed else isDependencyPassed rest n

/-- The retry policy of a test case. -/
structure RetryCfg where
  times : Int
  interval : Int

/-- The request template of a test case. -/
structure RequestCfg where
  method : GoStr
  path : GoStr
  headers : List (GoStr × GoStr)
  body : Option (List (GoStr × GoVal))
  query : List (GoStr × GoStr)

/-- One test case from configuration. -/
structure TestCaseCfg where
  name : GoStr
  dependsOn : GoStr
  request : RequestCfg
  expect : ExpectCfg
  save : List (GoStr × GoStr)
  retry : Option RetryCfg

/-- A fully resolved request, the output of `buildRequest`.  The
`net/http` constructor and JSON encoding of the body are collaborator
calls whose failure arms no claim exercises; the resolved descriptor is
what the claims speak about. -/
structure BuiltReq where
  method : GoStr
  url : GoStr
  headers : List (GoStr × GoStr)
  query : List (GoStr × GoStr)
  body : Option (List (GoStr × GoVal))

/-- Header and query resolution in `buildRequest`: each value goes
through `replaceVariables`. -/
def replaceKVs (gen : Nat → GoStr) (vars : VarStore) :
    List (GoStr × GoStr) → Nat → List (GoStr × GoStr) × Nat
  | [], c => ([], c)
  | (k, v) :: rest, c =>
    let r := replaceVariables gen vars v c
    let tl := replaceKVs gen vars rest r.2
    ((k, r.1) :: tl.1, tl.2)

/-- Model of the source's `buildRequest`: resolve the path, then the
body, then headers, then query, threading the generator counter in the
source's order. -/
def buildRequest (gen : Nat → GoStr) (baseURL : GoStr) (vars : VarStore)
    (cfg : RequestCfg) (c : Nat) : BuiltReq × Nat :=
  let p := replaceVariables gen vars cfg.path c
  let bodyAndC : Option (List (GoStr × GoVal)) × Nat :=
    match cfg.body with
    | none => (none, p.2)
    | some m =>
      let r := replaceMapVariables gen vars m p.2
      (some r.1, r.2)
  let hs := replaceKVs gen vars cfg.headers bodyAndC.2
  let qs := replaceKVs gen vars cfg.query hs.2
  ({ method := cfg.method, url := baseURL ++ p.1, headers := hs.1,
     query := qs.1, body := bodyAndC.1 }, qs.2)

/-- What the body reader and decoder collaborators report for one
response. -/
inductive RawBody where
  | emptyB
  | goodB (m : List (GoStr × GoVal))
  | readErrB
  | decodeErrB

/-- One transport-level response. -/
structure TransportResp where
  statusCode : Int
  raw : RawBody
  headers : List (GoStr × List GoStr)

/-- The transport oracle's outcome for one attempt. -/
inductive TransportRes where
  | terr (msg : GoStr)
  | tok (resp : TransportResp)

/-- Observable events of one `runTestCase` execution. -/
inductive Ev where
  | sendEv (i : Nat) (req : BuiltReq)
  | sleepEv (ms : Int)
  | rebuildEv

/-- The retry loop of `runTestCase` (source lines 223 to 234), written
with the remaining iteration count as fuel: attempt `i` sends the
current request; a response ends the loop; a transport error before the
last iteration sleeps the interval, rebuilds the request from the
template and retries; a transport error on the last iteration leaves
the loop with that error.  With zero iterations both the response and
the error stay `nil`. -/
def attemptLoop (gen : Nat → GoStr) (baseURL : GoStr) (vars : VarStore)
    (cfg : RequestCfg) (transport : Nat → TransportRes) (interval : Int) :
    Nat → Nat → BuiltReq → Nat → Option TransportResp × Option GoStr × Nat × List Ev
  | 0, _, _, c => (none, none, c, [])
  | 1, i, req, c =>
    match transport i with
    | .tok resp => (some resp, none, c, [.sendEv i req])
    | .terr m => (none, some m, c, [.sendEv i req])
  | f + 2, i, req, c =>
    match transport i with
    | .tok resp => (some resp, none, c, [.sendEv i req])
    | .terr _ =>
      let rb := buildRequest gen baseURL vars cfg c
      let rest := attemptLoop gen baseURL vars cfg transport interval (f + 1) (i + 1) rb.1 rb.2
      (rest.1, rest.2.1, rest.2.2.1,
        .sendEv i req :: .sleepEv interval :: .rebuildEv :: rest.2.2.2)

/-- The dependency failure message (quotes elided). -/
def depMsg (d : GoStr) : GoStr := str "dependency not passed: " ++ d

/-- The effective attempt count of a test case: `1` when no retry policy
is configured, else the configured `Times` (source lines 215 to 221). -/
def retryTimesOf (tc : TestCaseCfg) : Int :=
  match tc.retry with
  | none => 1
  | some rc => rc.times

/-- The effective retry interval of a test case, in milliseconds. -/
def intervalOf (tc : TestCaseCfg) : Int :=
  match tc.retry with
  | none => 0
  | some rc => rc.interval

/-- Model of the source's `runTestCase`.  The result triple carries the
produced `TestResult`, the variable store after capture and the
generator counter; `none` models a panic (the nil-response dereference
reached when the retry loop ran zero iterations, or a panicking path
inside an assertion or capture).  The event list records sends, sleeps
and rebuilds. -/
def runTestCase (gen : Nat → GoStr) (baseURL : GoStr) (vars : VarStore)
    (results : List ResultRec) (scenario : GoStr) (tc : TestCaseCfg)
    (transport : Nat → TransportRes) (c : Nat) :
    Option (ResultRec × VarStore × Nat) × List Ev :=
  if tc.dependsOn ≠ [] ∧ ¬ isDependencyPassed results tc.dependsOn then
    (some ({ scenario := scenario, name := tc.name, passed := false,
             error := depMsg tc.dependsOn, response := none }, vars, c), [])
  else
    let b := buildRequest gen baseURL vars tc.request c
    let lp := attemptLoop gen baseURL vars tc.request transport (intervalOf tc)
      (retryTimesOf tc).toNat 0 b.1 b.2
    let tr := lp.2.2.2
    match lp.2.1 with
    | some m =>
      (some ({ scenario := scenario, name := tc.name, passed := false,
               error := str "request failed: " ++ m, response := none }, vars, lp.2.2.1), tr)
    | none =>
      match lp.1 with
      | none => (none, tr)
      | some resp =>
        match resp.raw with
        | .readErrB =>
          (some ({ scenario := scenario, name := tc.name, passed := false,
                   error := str "read response failed", response := none }, vars, lp.2.2.1), tr)
        | .decodeErrB =>
          (some ({ scenario := scenario, name := tc.name, passed := false,
                   error := str "parse response failed", response := none }, vars, lp.2.2.1), tr)
        | _ =>
          let respData := match resp.raw with | .goodB m => m | _ => []
          let snap : RespSnapshot :=
            { statusCode := resp.statusCode, body := respData, headers := resp.headers }
          match validateExpectation gen vars tc.expect resp.statusCode respData lp.2.2.1 with
          | none => (none, tr)
          | some (some e, c') =>
            (some ({ scenario := scenario, name := tc.name, passed := false,
                     error := e, response := some snap }, vars, c'), tr)
          | some (none, c') =>
            match saveVariables tc.save respData vars with
            | none => (none, tr)
            | some vars' =>
              (some ({ scenario := scenario, name := tc.name, passed := true,
                       error := [], response := some snap }, vars', c'), tr)

/-! ## String lemmas -/

theorem strContains_iff (s pat : GoStr) :
    strContains s pat = true ↔ ∃ pre suf, s = pre ++ pat ++ suf := by
  induction s with
  | nil =>
    simp only [strContains]
    rw [List.isPrefixOf_iff_prefix]
    constructor
    · intro h
      have hp : pat = [] := List.prefix_nil.mp h
      exact ⟨[], [], by simp [hp]⟩
    · rintro ⟨pre, suf, h⟩
      have hlen := congrArg List.length h
      simp only [List.length_append, List.length_nil] at hlen
      have hp : pat = [] := List.eq_nil_of_length_eq_zero (by omega)
      simp [hp]
  | cons c r ih =>
    simp only [strContains, Bool.or_eq_true]
    rw [List.isPrefixOf_iff_prefix]
    constructor
    · rintro (⟨t, ht⟩ | h)
      · exact ⟨[], t, by simpa using ht.symm⟩
      · obtain ⟨pre, suf, h⟩ := ih.mp h
        exact ⟨c :: pre, suf, by simp [h]⟩
    · rintro ⟨pre, suf, h⟩
      cases pre with
      | nil =>
        left
        exact ⟨suf, by simpa using h.symm⟩
      | cons a pre' =>
        right
        simp only [List.cons_append, List.cons.injEq] at h
        exact ih.mpr ⟨pre', suf, by simpa [List.append_assoc] using h.2⟩

theorem strContains_self (s : GoStr) : strContains s s = true :=
  (strContains_iff s s).mpr ⟨[], [], by simp⟩

theorem mem_of_strContains {s pat : GoStr} {c : Char}
    (h : strContains s pat = true) (hc : c ∈ pat) : c ∈ s := by
  obtain ⟨pre, suf, rfl⟩ := (strContains_iff s pat).mp h
  simp [hc]

theorem lbChar_mem_pl (k : GoStr) : lbChar ∈ pl k := by simp [pl]

theorem braceFree_not_contains_pl {s : GoStr} (h : braceFree s = true) (k : GoStr) :
    strContains s (pl k) = false := by
  by_contra hc
  rw [Bool.not_eq_false] at hc
  have hm := mem_of_strContains hc (lbChar_mem_pl k)
  simp only [braceFree, List.all_eq_true] at h
  have h2 := h _ hm
  simp at h2

theorem braceFree_not_mem {s : GoStr} (h : braceFree s = true) :
    lbChar ∉ s ∧ rbChar ∉ s := by
  simp only [braceFree, List.all_eq_true] at h
  constructor <;> intro hm <;> have h2 := h _ hm <;> simp at h2

/-- Cancellation behind a brace-free text: if the text plus closing
braces also reads as some other text plus closing braces plus a tail,
the two texts agree. -/
theorem append_rbrb_cancel {name : GoStr} (hlb : rbChar ∉ name) :
    ∀ k suf : GoStr, name ++ [rbChar, rbChar] = k ++ [rbChar, rbChar] ++ suf → name = k := by
  induction name with
  | nil =>
    intro k suf heq
    simp only [List.nil_append] at heq
    have hlen := congrArg List.length heq
    simp only [List.length_append, List.length_cons, List.length_nil] at hlen
    exact (List.eq_nil_of_length_eq_zero (by omega : k.length = 0)).symm
  | cons c n ihn =>
    intro k suf heq
    cases k with
    | nil =>
      exfalso
      simp only [List.cons_append, List.nil_append, List.cons.injEq] at heq
      exact hlb (heq.1 ▸ List.mem_cons_self c n)
    | cons d k' =>
      simp only [List.cons_append, List.cons.injEq] at heq
      obtain ⟨rfl, heq⟩ := heq
      have hlb' : rbChar ∉ n := fun hm => hlb (by simp [hm])
      rw [ihn hlb' k' suf heq]


/-- The placeholder of a brace-free name contains a placeholder only as
the whole of itself. -/
theorem pl_contains_pl {name k : GoStr} (hb : braceFree name = true)
    (h : strContains (pl name) (pl k) = true) : k = name := by
  obtain ⟨pre, suf, heq⟩ := (strContains_iff _ _).mp h
  have hlb := braceFree_not_mem hb
  have hrb2 : List.count lbChar [rbChar, rbChar] = 0 := by decide
  have hcn : List.count lbChar (pl name) = 2 := by
    have h1 : List.count lbChar name = 0 := List.count_eq_zero.mpr hlb.1
    simp only [pl, List.count_cons_self, List.count_append, h1, hrb2]
  have hck : List.count lbChar (pre ++ pl k ++ suf) =
      List.count lbChar pre + (2 + List.count lbChar k) + List.count lbChar suf := by
    have h2 : List.count lbChar (pl k) = 2 + List.count lbChar k := by
      simp only [pl, List.count_cons_self, List.count_append, hrb2]
      omega
    simp only [List.count_append, h2]
  have hcc := congrArg (List.count lbChar) heq
  rw [hcn, hck] at hcc
  have hpre0 : List.count lbChar pre = 0 := by omega
  have hprem : lbChar ∉ pre := List.count_eq_zero.mp hpre0
  cases pre with
  | nil =>
    simp only [pl, List.nil_append, List.cons_append, List.cons.injEq] at heq
    obtain ⟨-, -, heq⟩ := heq
    exact (append_rbrb_cancel hlb.2 k suf (by simpa [List.append_assoc] using heq)).symm
  | cons a pre' =>
    exfalso
    have : pl name = a :: (pre' ++ pl k ++ suf) := by simpa using heq
    simp only [pl, List.cons.injEq] at this
    exact hprem (this.1 ▸ List.mem_cons_self a pre')

/-! ## Substitution lemmas -/

theorem isPrefixOf_self (l : GoStr) : l.isPrefixOf l = true :=
  List.isPrefixOf_iff_prefix.mpr (List.prefix_refl l)

theorem replaceAllAux_nilS (pat rep : GoStr) : ∀ f, replaceAllAux pat rep f [] = [] := by
  intro f; cases f <;> rfl

theorem replaceAll_self {s : GoStr} (h : s ≠ []) (rep : GoStr) :
    replaceAllStr s s rep = rep := by
  cases s with
  | nil => exact absurd rfl h
  | cons c s' =>
    show replaceAllAux (c :: s') rep (s'.length + 1) (c :: s') = rep
    simp only [replaceAllAux]
    rw [if_pos ⟨by simp, isPrefixOf_self _⟩]
    rw [show (c :: s').length = s'.length + 1 from rfl]
    rw [show List.drop (s'.length + 1) (c :: s') = s'.drop s'.length from rfl,
      List.drop_length, replaceAllAux_nilS, List.append_nil]

theorem replaceFirst_self {s : GoStr} (h : s ≠ []) (rep : GoStr) :
    replaceFirstStr s s rep = rep := by
  cases s with
  | nil => exact absurd rfl h
  | cons c s' =>
    show replaceFirstAux (c :: s') rep (s'.length + 1) (c :: s') = rep
    simp only [replaceFirstAux]
    rw [if_pos ⟨by simp, isPrefixOf_self _⟩]
    rw [show (c :: s').length = s'.length + 1 from rfl]
    rw [show List.drop (s'.length + 1) (c :: s') = s'.drop s'.length from rfl,
      List.drop_length, List.append_nil]

/-- Sanity of a variable store for template resolution: no stored
value's stringification contains a brace, so textual substitution can
never re-create a placeholder. -/
def storeSane (vars : VarStore) : Prop :=
  ∀ p ∈ vars, braceFree (strValue p.2) = true

instance (vars : VarStore) : Decidable (storeSane vars) := by
  unfold storeSane; infer_instance

/-- Sanity of the reserved generator: its output never contains a
brace (true of every real UUID string). -/
def genSane (gen : Nat → GoStr) : Prop := ∀ n, braceFree (gen n) = true

/-- An identifier-shaped variable name as the specification's
`\x7b\x7bidentifier\x7d\x7d` placeholders use: nonempty, no braces, no
whitespace. -/
def identLike (name : GoStr) : Prop :=
  name ≠ [] ∧ braceFree name = true ∧ ∀ c ∈ name, isSpaceChar c = false

instance (name : GoStr) : Decidable (identLike name) := by
  unfold identLike; infer_instance

theorem substEntries_braceFree {s : GoStr} (h : braceFree s = true) :
    ∀ vars : VarStore, substEntries vars s = s := by
  intro vars
  induction vars with
  | nil => rfl
  | cons p r ih =>
    obtain ⟨k, v⟩ := p
    simp only [substEntries, braceFree_not_contains_pl h k]
    simpa using ih

theorem lookupStr_mem {α : Type} :
    ∀ {l : List (GoStr × α)} {k : GoStr} {v : α}, lookupStr l k = some v → (k, v) ∈ l := by
  intro l
  induction l with
  | nil => intro k v h; simp [lookupStr] at h
  | cons p r ih =>
    intro k v h
    obtain ⟨k', w⟩ := p
    simp only [lookupStr] at h
    by_cases hk : k' = k
    · rw [if_pos hk] at h
      injection h with h
      simp [hk, h]
    · rw [if_neg hk] at h
      simp [ih h]

theorem substEntries_pl {name : GoStr} {v : GoVal} (hb : braceFree name = true) :
    ∀ vars : VarStore, storeSane vars → lookupStr vars name = some v →
    substEntries vars (pl name) = strValue v := by
  intro vars
  induction vars with
  | nil => intro _ h; simp [lookupStr] at h
  | cons p r ih =>
    obtain ⟨k, w⟩ := p
    intro hsane hv
    simp only [substEntries, lookupStr] at hv ⊢
    by_cases hk : k = name
    · rw [if_pos hk] at hv
      injection hv with hv
      subst hv
      rw [hk]
      simp only [strContains_self, if_true]
      rw [replaceAll_self (by simp [pl]) _]
      exact substEntries_braceFree (hsane (k, w) (by simp)) r
    · rw [if_neg hk] at hv
      have hnc : strContains (pl name) (pl k) = false := by
        by_contra hcc
        rw [Bool.not_eq_false] at hcc
        exact hk (pl_contains_pl hb hcc)
      simp only [hnc, Bool.false_eq_true, if_false]
      exact ih (fun q hq => hsane q (by simp [hq])) hv

theorem uuidLoop_no {s : GoStr} (h : strContains s uuidPat = false) (gen : Nat → GoStr) :
    ∀ f c, uuidLoop gen f s c = (s, c) := by
  intro f c
  cases f with
  | zero => rfl
  | succ f => simp [uuidLoop, h]

theorem uuidLoop_pat (gen : Nat → GoStr) (hg : genSane gen) (f c : Nat) :
    uuidLoop gen (f + 2) uuidPat c = (gen c, c + 1) := by
  simp only [uuidLoop, strContains_self, if_true]
  rw [replaceFirst_self (by simp [uuidPat, pl]) _]
  exact uuidLoop_no (braceFree_not_contains_pl (hg c) (str "uuid")) gen (f + 1) (c + 1)

/-- Substituting a placeholder whose brace-free name is bound in a sane
store yields brace-free text (for any name, the reserved generator
included). -/
theorem replaceVariables_pl_braceFree {gen : Nat → GoStr} {vars : VarStore}
    {name : GoStr} {v : GoVal} {c : Nat}
    (hg : genSane gen) (hb : braceFree name = true)
    (hsane : storeSane vars) (hv : lookupStr vars name = some v) :
    braceFree ((replaceVariables gen vars (pl name) c).1) = true := by
  unfold replaceVariables
  by_cases hu : name = str "uuid"
  · subst hu
    have hlen : (pl (str "uuid")).length + 1 = 7 + 2 := by decide
    have hloop : uuidLoop gen ((pl (str "uuid")).length + 1) (pl (str "uuid")) c
        = (gen c, c + 1) := by
      rw [hlen]; exact uuidLoop_pat gen hg 7 c
    show braceFree (substEntries vars (uuidLoop gen ((pl (str "uuid")).length + 1) (pl (str "uuid")) c).1) = true
    rw [hloop]
    rw [substEntries_braceFree (hg c) vars]
    exact hg c
  · have hnc : strContains (pl name) uuidPat = false := by
      by_contra hcc
      rw [Bool.not_eq_false] at hcc
      exact hu (pl_contains_pl hb hcc).symm
    show braceFree (substEntries vars (uuidLoop gen ((pl name).length + 1) (pl name) c).1) = true
    rw [uuidLoop_no hnc gen _ c]
    rw [substEntries_pl hb vars hsane hv]
    exact hsane (name, v) (lookupStr_mem hv)

/-- Away from the reserved generator name, substituting a bound
placeholder yields exactly the stored value's stringification. -/
theorem replaceVariables_pl_eq {gen : Nat → GoStr} {vars : VarStore}
    {name : GoStr} {v : GoVal} {c : Nat}
    (hb : braceFree name = true) (hu : name ≠ str "uuid")
    (hsane : storeSane vars) (hv : lookupStr vars name = some v) :
    (replaceVariables gen vars (pl name) c).1 = strValue v := by
  unfold replaceVariables
  have hnc : strContains (pl name) uuidPat = false := by
    by_contra hcc
    rw [Bool.not_eq_false] at hcc
    exact hu (pl_contains_pl hb hcc).symm
  show substEntries vars (uuidLoop gen ((pl name).length + 1) (pl name) c).1 = strValue v
  rw [uuidLoop_no hnc gen _ c]
  exact substEntries_pl hb vars hsane hv

theorem dropWhile_none2 {p : Char → Bool} (s : GoStr) (h : ∀ c ∈ s, p c = false) :
    s.dropWhile p = s := dropWhile_none s h

theorem trimStr_id {s : GoStr} (h : ∀ c ∈ s, isSpaceChar c = false) : trimStr s = s := by
  unfold trimStr
  rw [dropWhile_none s h,
    dropWhile_none s.reverse (fun c hc => h c (List.mem_reverse.mp hc)),
    List.reverse_reverse]

theorem extractVarName_pl {name : GoStr} (hn : identLike name) :
    extractVarName (pl name) = name := by
  obtain ⟨hne, hb, hsp⟩ := hn
  unfold extractVarName
  have hpre : ([lbChar, lbChar] : GoStr).isPrefixOf (pl name) = true := by
    rw [List.isPrefixOf_iff_prefix]
    exact ⟨name ++ [rbChar, rbChar], rfl⟩
  have hsuf : ([rbChar, rbChar] : GoStr).isSuffixOf (pl name) = true := by
    rw [List.isSuffixOf_iff_suffix]
    exact ⟨[lbChar, lbChar] ++ name, by simp [pl]⟩
  rw [if_pos ⟨hpre, hsuf⟩]
  have hdrop : (pl name).drop 2 = name ++ [rbChar, rbChar] := rfl
  rw [hdrop]
  have h1 : (name ++ [rbChar, rbChar]).dropLast = name ++ [rbChar] := by
    rw [show name ++ [rbChar, rbChar] = (name ++ [rbChar]) ++ [rbChar] by simp]
    exact List.dropLast_concat
  have h2 : (name ++ [rbChar]).dropLast = name := List.dropLast_concat
  rw [h1, h2, trimStr_id hsp]
  have hm := braceFree_not_mem hb
  have hc1 : strContains name [lbChar, lbChar] = false := by
    by_contra hcc
    rw [Bool.not_eq_false] at hcc
    exact hm.1 (mem_of_strContains hcc (by simp))
  have hc2 : strContains name [rbChar, rbChar] = false := by
    by_contra hcc
    rw [Bool.not_eq_false] at hcc
    exact hm.2 (mem_of_strContains hcc (by simp))
  simp [hc1, hc2]

/-- Tier one of the three-tier policy, packaged: a whole-field
placeholder of an identifier-shaped name bound in a sane store resolves
to the stored value itself. -/
theorem resolveStringField_pl {gen : Nat → GoStr} {vars : VarStore}
    {name : GoStr} {v : GoVal} {c : Nat}
    (hg : genSane gen) (hn : identLike name)
    (hsane : storeSane vars) (hv : lookupStr vars name = some v) :
    resolveStringField vars (pl name) ((replaceVariables gen vars (pl name) c).1) = v := by
  have hbf := replaceVariables_pl_braceFree (c := c) hg hn.2.1 hsane hv
  have hneq : (replaceVariables gen vars (pl name) c).1 ≠ pl name := by
    intro he
    rw [he] at hbf
    exact (braceFree_not_mem hbf).1 (lbChar_mem_pl name)
  unfold resolveStringField
  rw [if_neg hneq, extractVarName_pl hn]
  simp only [hn.1, ne_eq, not_false_iff, if_true, hv]

/-! ## Body-level lifting lemmas -/

/-- `replaceMapVariables` rewrites each field in place: looking a key up
in the output finds the input field's resolved value, resolved at the
counter value the walk reaches for that field. -/
theorem replaceMapVariables_lookup (gen : Nat → GoStr) (vars : VarStore) :
    ∀ (body : List (GoStr × GoVal)) (c : Nat) (k : GoStr) (sv : GoVal),
    lookupStr body k = some sv →
    ∃ c', lookupStr (replaceMapVariables gen vars body c).1 k
      = some (replaceBodyValue gen vars sv c').1 := by
  intro body
  induction body with
  | nil => intro c k sv h; simp [lookupStr] at h
  | cons p rest ih =>
    intro c k sv h
    obtain ⟨k1, v1⟩ := p
    simp only [lookupStr] at h
    by_cases hk : k1 = k
    · rw [if_pos hk] at h
      injection h with h
      subst h
      refine ⟨c, ?_⟩
      simp [replaceMapVariables, lookupStr, hk]
    · rw [if_neg hk] at h
      obtain ⟨c', hc'⟩ := ih (replaceBodyValue gen vars v1 c).2 k sv h
      refine ⟨c', ?_⟩
      simp [replaceMapVariables, lookupStr, hk, hc']

/-- `resolveListElems` rewrites each element in place; a string element
at a position resolves by the per-element two-tier rule at the counter
value the walk reaches for it. -/
theorem resolveListElems_get (gen : Nat → GoStr) (vars : VarStore) :
    ∀ (xs : List GoVal) (c : Nat) (pos : Nat) (s : GoStr),
    xs[pos]? = some (goStr s) →
    ∃ c', (resolveListElems gen vars xs c).1[pos]?
      = some (resolveListElem s ((replaceVariables gen vars s c').1)) := by
  intro xs
  induction xs with
  | nil => intro c pos s h; simp at h
  | cons x rest ih =>
    intro c pos s h
    cases pos with
    | zero =>
      simp only [List.getElem?_cons_zero] at h
      injection h with h
      subst h
      refine ⟨c, ?_⟩
      simp [resolveListElems]
    | succ pos' =>
      simp only [List.getElem?_cons_succ] at h
      cases x with
      | goStr t =>
        obtain ⟨c', hc'⟩ := ih (replaceVariables gen vars t c).2 pos' s h
        exact ⟨c', by simpa [resolveListElems] using hc'⟩
      | goNil => obtain ⟨c', hc'⟩ := ih c pos' s h; exact ⟨c', by simpa [resolveListElems] using hc'⟩
      | goBool b => obtain ⟨c', hc'⟩ := ih c pos' s h; exact ⟨c', by simpa [resolveListElems] using hc'⟩
      | goInt64 i => obtain ⟨c', hc'⟩ := ih c pos' s h; exact ⟨c', by simpa [resolveListElems] using hc'⟩
      | goUInt64 n => obtain ⟨c', hc'⟩ := ih c pos' s h; exact ⟨c', by simpa [resolveListElems] using hc'⟩
      | goInt i => obtain ⟨c', hc'⟩ := ih c pos' s h; exact ⟨c', by simpa [resolveListElems] using hc'⟩
      | goInt32 i => obtain ⟨c', hc'⟩ := ih c pos' s h; exact ⟨c', by simpa [resolveListElems] using hc'⟩
      | goUInt n => obtain ⟨c', hc'⟩ := ih c pos' s h; exact ⟨c', by simpa [resolveListElems] using hc'⟩
      | goUInt32 n => obtain ⟨c', hc'⟩ := ih c pos' s h; exact ⟨c', by simpa [resolveListElems] using hc'⟩
      | goFloat q => obtain ⟨c', hc'⟩ := ih c pos' s h; exact ⟨c', by simpa [resolveListElems] using hc'⟩
      | goList ys => obtain ⟨c', hc'⟩ := ih c pos' s h; exact ⟨c', by simpa [resolveListElems] using hc'⟩
      | goMap m => obtain ⟨c', hc'⟩ := ih c pos' s h; exact ⟨c', by simpa [resolveListElems] using hc'⟩

theorem numericChar_of_digit {c : Char} (h : c.isDigit = true) : numericChar c = true := by
  simp [numericChar, h]

theorem isNumericString_intStr (i : Int) : isNumericString (intStr i) = true := by
  unfold intStr
  by_cases h : i < 0
  · simp only [h, if_true, isNumericString]
    have hall : (natStr i.natAbs).all numericChar = true := by
      rw [List.all_eq_true]
      exact fun c hc => numericChar_of_digit (natStr_digits _ c hc)
    simp [hall]
  · simp only [h, if_false]
    have hshape : ∃ d ds, natStr i.toNat = d :: ds := by
      cases hn : natStr i.toNat with
      | nil => exact absurd hn (natStr_ne_nil _)
      | cons d ds => exact ⟨d, ds, rfl⟩
    obtain ⟨d, ds, heq⟩ := hshape
    rw [heq]
    simp only [isNumericString]
    have hd : d.isDigit = true := natStr_digits _ d (by rw [heq]; simp)
    have hds : ds.all numericChar = true := by
      rw [List.all_eq_true]
      intro c hc
      exact numericChar_of_digit (natStr_digits _ c (by rw [heq]; simp [hc]))
    simp [numericChar_of_digit hd, hds]

theorem parseNumber_intStr {i : Int} (h : inInt64Range i) :
    parseNumber (intStr i) = some (goInt64 i) := by
  unfold parseNumber
  rw [sscanfD_intStr i h]

/-! ## Comparison lemmas -/

theorem intStr_injective : Function.Injective intStr := by
  intro i j h
  have hhead : ∀ m : Nat, ∀ d ds, natStr m = d :: ds → d ≠ '-' := by
    intro m d ds hm
    have := natStr_digits m d (by rw [hm]; simp)
    intro hd
    rw [hd] at this
    revert this
    decide
  unfold intStr at h
  by_cases hi : i < 0 <;> by_cases hj : j < 0
  · rw [if_pos hi, if_pos hj] at h
    injection h with h1 h2
    have := natStr_injective h2
    omega
  · rw [if_pos hi, if_neg hj] at h
    exfalso
    cases hn : natStr j.toNat with
    | nil => exact natStr_ne_nil _ hn
    | cons d ds =>
      rw [hn] at h
      injection h with h1 h2
      exact hhead _ d ds hn h1.symm
  · rw [if_neg hi, if_pos hj] at h
    exfalso
    cases hn : natStr i.toNat with
    | nil => exact natStr_ne_nil _ hn
    | cons d ds =>
      rw [hn] at h
      injection h with h1 h2
      exact hhead _ d ds hn h1
  · rw [if_neg hi, if_neg hj] at h
    have := natStr_injective h
    omega

theorem intStr_no_slash (i : Int) : '/' ∉ intStr i := by
  unfold intStr
  by_cases h : i < 0
  · simp only [h, if_true, List.mem_cons]
    rintro (hc | hc)
    · exact absurd hc (by decide)
    · have := natStr_digits i.natAbs _ hc
      revert this; decide
  · simp only [h, if_false]
    intro hc
    have := natStr_digits i.toNat _ hc
    revert this; decide

theorem natStr_no_slash (n : Nat) : '/' ∉ natStr n := by
  intro hc
  have := natStr_digits n _ hc
  revert this; decide

theorem slash_split : ∀ (a : GoStr) (b : GoStr) (a' : GoStr) (b' : GoStr),
    '/' ∉ a → '/' ∉ a' → a ++ '/' :: b = a' ++ '/' :: b' → a = a' ∧ b = b' := by
  intro a
  induction a with
  | nil =>
    intro b a' b' _ ha' h
    cases a' with
    | nil => simpa using h
    | cons c r =>
      exfalso
      simp only [List.nil_append, List.cons_append, List.cons.injEq] at h
      exact ha' (h.1 ▸ List.mem_cons_self c r)
  | cons c r ih =>
    intro b a' b' ha ha' h
    cases a' with
    | nil =>
      exfalso
      simp only [List.cons_append, List.nil_append, List.cons.injEq] at h
      exact ha (h.1 ▸ List.mem_cons_self c r)
    | cons c' r' =>
      simp only [List.cons_append, List.cons.injEq] at h
      obtain ⟨rfl, h⟩ := h
      obtain ⟨h1, h2⟩ := ih b r' b' (fun hm => ha (by simp [hm])) (fun hm => ha' (by simp [hm])) h
      exact ⟨by rw [h1], h2⟩

/-- The scalar kinds: every dynamic type except lists and maps. -/
def scalarKind : GoKind → Bool
  | .kList => false
  | .kMap => false
  | _ => true

theorem floatSprint_inj {q p : Rat}
    (h : (if q.den = 1 then intStr q.num else floatSprintNonInt q)
       = (if p.den = 1 then intStr p.num else floatSprintNonInt p)) : q = p := by
  by_cases hq : q.den = 1 <;> by_cases hp : p.den = 1
  · rw [if_pos hq, if_pos hp] at h
    exact Rat.ext (intStr_injective h) (hq.trans hp.symm)
  · rw [if_pos hq, if_neg hp] at h
    exfalso
    have : '/' ∈ intStr q.num := by
      rw [h]
      simp [floatSprintNonInt]
    exact intStr_no_slash q.num this
  · rw [if_neg hq, if_pos hp] at h
    exfalso
    have : '/' ∈ intStr p.num := by
      rw [← h]
      simp [floatSprintNonInt]
    exact intStr_no_slash p.num this
  · rw [if_neg hq, if_neg hp] at h
    unfold floatSprintNonInt at h
    obtain ⟨h1, h2⟩ := slash_split _ _ _ _ (intStr_no_slash q.num) (intStr_no_slash p.num) h
    exact Rat.ext (intStr_injective h1) (natStr_injective h2)

/-- `fmt.Sprint` separates values of every scalar kind. -/
theorem goSprint_inj_scalar : ∀ a b : GoVal, goKind a = goKind b →
    scalarKind (goKind a) = true → (goSprint a = goSprint b ↔ a = b) := by
  intro a b hk hs
  cases a <;> cases b <;> try (simp [goKind] at hk)
  case goNil.goNil => simp
  case goBool.goBool b1 b2 =>
    cases b1 <;> cases b2 <;> simp [goSprint] <;> decide
  case goInt64.goInt64 i j =>
    simp only [goSprint, GoVal.goInt64.injEq]
    exact ⟨fun h => intStr_injective h, fun h => by rw [h]⟩
  case goUInt64.goUInt64 m n =>
    simp only [goSprint, GoVal.goUInt64.injEq]
    exact ⟨fun h => natStr_injective h, fun h => by rw [h]⟩
  case goInt.goInt i j =>
    simp only [goSprint, GoVal.goInt.injEq]
    exact ⟨fun h => intStr_injective h, fun h => by rw [h]⟩
  case goInt32.goInt32 i j =>
    simp only [goSprint, GoVal.goInt32.injEq]
    exact ⟨fun h => intStr_injective h, fun h => by rw [h]⟩
  case goUInt.goUInt m n =>
    simp only [goSprint, GoVal.goUInt.injEq]
    exact ⟨fun h => natStr_injective h, fun h => by rw [h]⟩
  case goUInt32.goUInt32 m n =>
    simp only [goSprint, GoVal.goUInt32.injEq]
    exact ⟨fun h => natStr_injective h, fun h => by rw [h]⟩
  case goFloat.goFloat q p =>
    simp only [goSprint, GoVal.goFloat.injEq]
    exact ⟨fun h => floatSprint_inj h, fun h => by rw [h]⟩
  case goStr.goStr s t =>
    simp [goSprint]
  case goList.goList xs ys => simp [scalarKind, goKind] at hs
  case goMap.goMap m1 m2 => simp [scalarKind, goKind] at hs

/-- `valuesEqual` is symmetric by construction. -/
theorem valuesEqual_symm (a b : GoVal) : valuesEqual a b = valuesEqual b a := by
  unfold valuesEqual
  by_cases hk : goKind a = goKind b
  · rw [if_pos hk, if_pos hk.symm]
    exact decide_eq_decide.mpr eq_comm
  · rw [if_neg hk, if_neg (fun h => hk h.symm)]
    cases hia : toInt64 a <;> cases hib : toInt64 b <;>
      cases hfa : toFloat64 a <;> cases hfb : toFloat64 b <;>
      simp only [] <;>
      first
      | rfl
      | exact decide_eq_decide.mpr eq_comm

/-! ## Retry-loop lemmas -/

/-- Send events of a trace. -/
def isSendEv : Ev → Bool
  | .sendEv _ _ => true
  | _ => false

/-- Sleep events of a trace. -/
def isSleepEv : Ev → Bool
  | .sleepEv _ => true
  | _ => false

/-- Rebuild events of a trace. -/
def isRebuildEv : Ev → Bool
  | .rebuildEv => true
  | _ => false

/-- Number of transport calls recorded in a trace. -/
def sendCount (tr : List Ev) : Nat := (tr.filter isSendEv).length

/-- Number of sleeps recorded in a trace. -/
def sleepCount (tr : List Ev) : Nat := (tr.filter isSleepEv).length

/-- Number of request rebuilds recorded in a trace. -/
def rebuildCount (tr : List Ev) : Nat := (tr.filter isRebuildEv).length

/-- Whether one attempt outcome is a transport error. -/
def isTerrB : TransportRes → Bool
  | .terr _ => true
  | _ => false

section LoopLemmas

variable (gen : Nat → GoStr) (baseURL : GoStr) (vars : VarStore) (cfg : RequestCfg)
variable (transport : Nat → TransportRes) (interval : Int)

theorem sendCount_nil : sendCount [] = 0 := rfl

theorem sendCount_cons_send (i : Nat) (r : BuiltReq) (tr : List Ev) :
    sendCount (.sendEv i r :: tr) = sendCount tr + 1 := by
  simp [sendCount, List.filter_cons, isSendEv]

theorem sendCount_cons_sleep (ms : Int) (tr : List Ev) :
    sendCount (.sleepEv ms :: tr) = sendCount tr := by
  simp [sendCount, List.filter_cons, isSendEv]

theorem sendCount_cons_rebuild (tr : List Ev) :
    sendCount (.rebuildEv :: tr) = sendCount tr := by
  simp [sendCount, List.filter_cons, isSendEv]

theorem sleepCount_cons_send (i : Nat) (r : BuiltReq) (tr : List Ev) :
    sleepCount (.sendEv i r :: tr) = sleepCount tr := by
  simp [sleepCount, List.filter_cons, isSleepEv]

theorem sleepCount_cons_sleep (ms : Int) (tr : List Ev) :
    sleepCount (.sleepEv ms :: tr) = sleepCount tr + 1 := by
  simp [sleepCount, List.filter_cons, isSleepEv]

theorem sleepCount_cons_rebuild (tr : List Ev) :
    sleepCount (.rebuildEv :: tr) = sleepCount tr := by
  simp [sleepCount, List.filter_cons, isSleepEv]

theorem rebuildCount_cons_send (i : Nat) (r : BuiltReq) (tr : List Ev) :
    rebuildCount (.sendEv i r :: tr) = rebuildCount tr := by
  simp [rebuildCount, List.filter_cons, isRebuildEv]

theorem rebuildCount_cons_sleep (ms : Int) (tr : List Ev) :
    rebuildCount (.sleepEv ms :: tr) = rebuildCount tr := by
  simp [rebuildCount, List.filter_cons, isRebuildEv]

theorem rebuildCount_cons_rebuild (tr : List Ev) :
    rebuildCount (.rebuildEv :: tr) = rebuildCount tr + 1 := by
  simp [rebuildCount, List.filter_cons, isRebuildEv]

section LoopLemmas

variable (gen : Nat → GoStr) (baseURL : GoStr) (vars : VarStore) (cfg : RequestCfg)
variable (transport : Nat → TransportRes) (interval : Int)

theorem attemptLoop_one_tok {i : Nat} {resp : TransportResp} (htr : transport i = .tok resp)
    (req : BuiltReq) (c : Nat) :
    attemptLoop gen baseURL vars cfg transport interval 1 i req c
      = (some resp, none, c, [.sendEv i req]) := by
  simp [attemptLoop, htr]

theorem attemptLoop_one_terr {i : Nat} {m : GoStr} (htr : transport i = .terr m)
    (req : BuiltReq) (c : Nat) :
    attemptLoop gen baseURL vars cfg transport interval 1 i req c
      = (none, some m, c, [.sendEv i req]) := by
  simp [attemptLoop, htr]

theorem attemptLoop_big_tok {i : Nat} {resp : TransportResp} (htr : transport i = .tok resp)
    (f : Nat) (req : BuiltReq) (c : Nat) :
    attemptLoop gen baseURL vars cfg transport interval (f + 2) i req c
      = (some resp, none, c, [.sendEv i req]) := by
  simp [attemptLoop, htr]

theorem attemptLoop_big_terr {i : Nat} {m : GoStr} (htr : transport i = .terr m)
    (f : Nat) (req : BuiltReq) (c : Nat) :
    attemptLoop gen baseURL vars cfg transport interval (f + 2) i req c
      = (let rb := buildRequest gen baseURL vars cfg c
         let rest := attemptLoop gen baseURL vars cfg transport interval (f + 1) (i + 1) rb.1 rb.2
         (rest.1, rest.2.1, rest.2.2.1,
           .sendEv i req :: .sleepEv interval :: .rebuildEv :: rest.2.2.2)) := by
  simp [attemptLoop, htr]

theorem attemptLoop_allErr :
    ∀ f i req c, (∀ j, j < f → isTerrB (transport (i + j)) = true) →
    (attemptLoop gen baseURL vars cfg transport interval f i req c).1 = none ∧
    sendCount (attemptLoop gen baseURL vars cfg transport interval f i req c).2.2.2 = f ∧
    sleepCount (attemptLoop gen baseURL vars cfg transport interval f i req c).2.2.2 = f - 1 ∧
    rebuildCount (attemptLoop gen baseURL vars cfg transport interval f i req c).2.2.2 = f - 1 ∧
    (1 ≤ f → (attemptLoop gen baseURL vars cfg transport interval f i req c).2.1.isSome = true) := by
  intro f
  induction f using Nat.strong_induction_on with
  | _ f ih =>
    match f with
    | 0 => intro i req c h; exact ⟨rfl, rfl, rfl, rfl, by omega⟩
    | 1 =>
      intro i req c h
      have h0 := h 0 (by omega)
      simp only [Nat.add_zero] at h0
      cases htr : transport i with
      | tok resp => rw [htr] at h0; simp [isTerrB] at h0
      | terr m =>
        rw [attemptLoop_one_terr gen baseURL vars cfg transport interval htr req c]
        exact ⟨rfl, rfl, rfl, rfl, fun _ => rfl⟩
    | f + 2 =>
      intro i req c h
      have h0 := h 0 (by omega)
      simp only [Nat.add_zero] at h0
      cases htr : transport i with
      | tok resp => rw [htr] at h0; simp [isTerrB] at h0
      | terr m =>
        rw [attemptLoop_big_terr gen baseURL vars cfg transport interval htr f req c]
        have hrec := ih (f + 1) (by omega) (i + 1)
          (buildRequest gen baseURL vars cfg c).1 (buildRequest gen baseURL vars cfg c).2
          (fun j hj => by
            have := h (j + 1) (by omega)
            rwa [show i + (j + 1) = i + 1 + j by omega] at this)
        obtain ⟨h1, h2, h3, h4, h5⟩ := hrec
        refine ⟨h1, ?_, ?_, ?_, fun _ => h5 (by omega)⟩
        · rw [sendCount_cons_send, sendCount_cons_sleep, sendCount_cons_rebuild, h2]
        · rw [sleepCount_cons_send, sleepCount_cons_sleep, sleepCount_cons_rebuild, h3]
          omega
        · rw [rebuildCount_cons_send, rebuildCount_cons_sleep, rebuildCount_cons_rebuild, h4]
          omega

theorem attemptLoop_firstOk :
    ∀ k f i req c, k < f → (∀ j, j < k → isTerrB (transport (i + j)) = true) →
    isTerrB (transport (i + k)) = false →
    (∃ resp, transport (i + k) = .tok resp ∧
      (attemptLoop gen baseURL vars cfg transport interval f i req c).1 = some resp) ∧
    (attemptLoop gen baseURL vars cfg transport interval f i req c).2.1 = none ∧
    sendCount (attemptLoop gen baseURL vars cfg transport interval f i req c).2.2.2 = k + 1 ∧
    sleepCount (attemptLoop gen baseURL vars cfg transport interval f i req c).2.2.2 = k ∧
    rebuildCount (attemptLoop gen baseURL vars cfg transport interval f i req c).2.2.2 = k := by
  intro k
  induction k with
  | zero =>
    intro f i req c hf _ hok
    simp only [Nat.add_zero] at hok ⊢
    cases htr : transport i with
    | terr m => rw [htr] at hok; simp [isTerrB] at hok
    | tok resp =>
      match f, hf with
      | 1, _ =>
        rw [attemptLoop_one_tok gen baseURL vars cfg transport interval htr req c]
        exact ⟨⟨resp, rfl, rfl⟩, rfl, rfl, rfl, rfl⟩
      | f + 2, _ =>
        rw [attemptLoop_big_tok gen baseURL vars cfg transport interval htr f req c]
        exact ⟨⟨resp, rfl, rfl⟩, rfl, rfl, rfl, rfl⟩
  | succ k ihk =>
    intro f i req c hf herr hok
    have h0 := herr 0 (by omega)
    simp only [Nat.add_zero] at h0
    cases htr : transport i with
    | tok resp => rw [htr] at h0; simp [isTerrB] at h0
    | terr m =>
      match f, hf with
      | f + 2, hf =>
        rw [attemptLoop_big_terr gen baseURL vars cfg transport interval htr f req c]
        have hrec := ihk (f + 1) (i + 1)
          (buildRequest gen baseURL vars cfg c).1 (buildRequest gen baseURL vars cfg c).2
          (by omega)
          (fun j hj => by
            have := herr (j + 1) (by omega)
            rwa [show i + (j + 1) = i + 1 + j by omega] at this)
          (by rwa [show i + 1 + k = i + (k + 1) by omega])
        obtain ⟨⟨resp, hr1, hr2⟩, h2, h3, h4, h5⟩ := hrec
        refine ⟨⟨resp, by rwa [show i + 1 + k = i + (k + 1) by omega] at hr1, hr2⟩, h2, ?_, ?_, ?_⟩
        · rw [sendCount_cons_send, sendCount_cons_sleep, sendCount_cons_rebuild, h3]
        · rw [sleepCount_cons_send, sleepCount_cons_sleep, sleepCount_cons_rebuild, h4]
        · rw [rebuildCount_cons_send, rebuildCount_cons_sleep, rebuildCount_cons_rebuild, h5]

theorem attemptLoop_sendBound :
    ∀ f i req c,
    sendCount (attemptLoop gen baseURL vars cfg transport interval f i req c).2.2.2 ≤ f := by
  intro f
  induction f using Nat.strong_induction_on with
  | _ f ih =>
    match f with
    | 0 => intro i req c; exact Nat.le_refl 0
    | 1 =>
      intro i req c
      cases htr : transport i with
      | tok resp =>
        rw [attemptLoop_one_tok gen baseURL vars cfg transport interval htr req c]
        exact Nat.le_refl 1
      | terr m =>
        rw [attemptLoop_one_terr gen baseURL vars cfg transport interval htr req c]
        exact Nat.le_refl 1
    | f + 2 =>
      intro i req c
      cases htr : transport i with
      | tok resp =>
        rw [attemptLoop_big_tok gen baseURL vars cfg transport interval htr f req c]
        show sendCount [.sendEv i req] ≤ f + 2
        rw [show sendCount [.sendEv i req] = 1 from rfl]
        omega
      | terr m =>
        have hrec := ih (f + 1) (by omega) (i + 1)
          (buildRequest gen baseURL vars cfg c).1 (buildRequest gen baseURL vars cfg c).2
        rw [attemptLoop_big_terr gen baseURL vars cfg transport interval htr f req c]
        show sendCount (_ :: _ :: _ :: _) ≤ f + 2
        rw [sendCount_cons_send, sendCount_cons_sleep, sendCount_cons_rebuild]
        omega

theorem attemptLoop_sleepVal :
    ∀ f i req c ms, Ev.sleepEv ms ∈
      (attemptLoop gen baseURL vars cfg transport interval f i req c).2.2.2 → ms = interval := by
  intro f
  induction f using Nat.strong_induction_on with
  | _ f ih =>
    match f with
    | 0 => intro i req c ms h; simp [attemptLoop] at h
    | 1 =>
      intro i req c ms h
      cases htr : transport i with
      | tok resp =>
        rw [attemptLoop_one_tok gen baseURL vars cfg transport interval htr req c] at h
        simp at h
      | terr m =>
        rw [attemptLoop_one_terr gen baseURL vars cfg transport interval htr req c] at h
        simp at h
    | f + 2 =>
      intro i req c ms h
      cases htr : transport i with
      | tok resp =>
        rw [attemptLoop_big_tok gen baseURL vars cfg transport interval htr f req c] at h
        simp at h
      | terr m =>
        rw [attemptLoop_big_terr gen baseURL vars cfg transport interval htr f req c] at h
        simp only [List.mem_cons, Ev.sleepEv.injEq] at h
        rcases h with h | h | h | h
        · exact absurd h (by simp)
        · exact h
        · exact absurd h (by simp)
        · exact ih (f + 1) (by omega) (i + 1) _ _ ms h

theorem attemptLoop_sendFresh :
    ∀ f i req c, (∃ c0, req = (buildRequest gen baseURL vars cfg c0).1) →
    ∀ j r, Ev.sendEv j r ∈
      (attemptLoop gen baseURL vars cfg transport interval f i req c).2.2.2 →
    ∃ c', r = (buildRequest gen baseURL vars cfg c').1 := by
  intro f
  induction f using Nat.strong_induction_on with
  | _ f ih =>
    match f with
    | 0 => intro i req c _ j r h; simp [attemptLoop] at h
    | 1 =>
      intro i req c hreq j r h
      cases htr : transport i with
      | tok resp =>
        rw [attemptLoop_one_tok gen baseURL vars cfg transport interval htr req c] at h
        simp only [List.mem_singleton] at h
        injection h with h1 h2
        exact h2 ▸ hreq
      | terr m =>
        rw [attemptLoop_one_terr gen baseURL vars cfg transport interval htr req c] at h
        simp only [List.mem_singleton] at h
        injection h with h1 h2
        exact h2 ▸ hreq
    | f + 2 =>
      intro i req c hreq j r h
      cases htr : transport i with
      | tok resp =>
        rw [attemptLoop_big_tok gen baseURL vars cfg transport interval htr f req c] at h
        simp only [List.mem_singleton] at h
        injection h with h1 h2
        exact h2 ▸ hreq
      | terr m =>
        rw [attemptLoop_big_terr gen baseURL vars cfg transport interval htr f req c] at h
        simp only [List.mem_cons] at h
        rcases h with h | h | h | h
        · injection h with h1 h2; exact h2 ▸ hreq
        · exact absurd h (by simp)
        · exact absurd h (by simp)
        · exact ih (f + 1) (by omega) (i + 1) _ _ ⟨c, rfl⟩ j r h

theorem attemptLoop_errPattern :
    ∀ (transport' : Nat → TransportRes), (∀ n, isTerrB (transport' n) = isTerrB (transport n)) →
    ∀ f i req req' c c',
    sendCount (attemptLoop gen baseURL vars cfg transport' interval f i req' c').2.2.2 =
    sendCount (attemptLoop gen baseURL vars cfg transport interval f i req c).2.2.2 := by
  intro transport' hsame f
  induction f using Nat.strong_induction_on with
  | _ f ih =>
    match f with
    | 0 => intro i req req' c c'; rfl
    | 1 =>
      intro i req req' c c'
      have hs := hsame i
      cases htr : transport i <;> cases htr' : transport' i <;>
        rw [htr, htr'] at hs <;> simp only [isTerrB] at hs
      case terr.terr m m' =>
        rw [attemptLoop_one_terr gen baseURL vars cfg transport interval htr req c,
          attemptLoop_one_terr gen baseURL vars cfg transport' interval htr' req' c']
        rfl
      case terr.tok m r1 => exact absurd hs (by simp)
      case tok.terr r1 m => exact absurd hs (by simp)
      case tok.tok r1 r2 =>
        rw [attemptLoop_one_tok gen baseURL vars cfg transport interval htr req c,
          attemptLoop_one_tok gen baseURL vars cfg transport' interval htr' req' c']
        rfl
    | f + 2 =>
      intro i req req' c c'
      have hs := hsame i
      cases htr : transport i <;> cases htr' : transport' i <;>
        rw [htr, htr'] at hs <;> simp only [isTerrB] at hs
      case terr.terr m m' =>
        have hrec := ih (f + 1) (by omega) (i + 1)
          (buildRequest gen baseURL vars cfg c).1 (buildRequest gen baseURL vars cfg c').1
          (buildRequest gen baseURL vars cfg c).2 (buildRequest gen baseURL vars cfg c').2
        rw [attemptLoop_big_terr gen baseURL vars cfg transport interval htr f req c,
          attemptLoop_big_terr gen baseURL vars cfg transport' interval htr' f req' c']
        show sendCount (_ :: _ :: _ :: _) = sendCount (_ :: _ :: _ :: _)
        rw [sendCount_cons_send, sendCount_cons_sleep, sendCount_cons_rebuild,
          sendCount_cons_send, sendCount_cons_sleep, sendCount_cons_rebuild]
        omega
      case terr.tok m r1 => exact absurd hs (by simp)
      case tok.terr r1 m => exact absurd hs (by simp)
      case tok.tok r1 r2 =>
        rw [attemptLoop_big_tok gen baseURL vars cfg transport interval htr f req c,
          attemptLoop_big_tok gen baseURL vars cfg transport' interval htr' f req' c']
        rfl

theorem attemptLoop_posFuel :
    ∀ f i req c, 1 ≤ f →
    ¬((attemptLoop gen baseURL vars cfg transport interval f i req c).1 = none ∧
      (attemptLoop gen baseURL vars cfg transport interval f i req c).2.1 = none) := by
  intro f
  induction f using Nat.strong_induction_on with
  | _ f ih =>
    match f with
    | 0 => intro i req c h; omega
    | 1 =>
      intro i req c _
      cases htr : transport i with
      | tok resp =>
        rw [attemptLoop_one_tok gen baseURL vars cfg transport interval htr req c]
        simp
      | terr m =>
        rw [attemptLoop_one_terr gen baseURL vars cfg transport interval htr req c]
        simp
    | f + 2 =>
      intro i req c _
      cases htr : transport i with
      | tok resp =>
        rw [attemptLoop_big_tok gen baseURL vars cfg transport interval htr f req c]
        simp
      | terr m =>
        have hrec := ih (f + 1) (by omega) (i + 1)
          (buildRequest gen baseURL vars cfg c).1 (buildRequest gen baseURL vars cfg c).2
          (by omega)
        rw [attemptLoop_big_terr gen baseURL vars cfg transport interval htr f req c]
        simpa using hrec

end LoopLemmas

/-! ## Path and capture lemmas -/

/-- A path segment that cannot panic inside `getValueByPath`: if it
carries an index, the bracket pair parses and the scanned index is not
negative. -/
def segOkB (seg : GoStr) : Bool :=
  if '[' ∈ seg then
    match parseIdxSeg seg with
    | none => false
    | some p => decide (0 ≤ (sscanfD p.2).getD 0)
  else true

/-- A path none of whose segments can panic. -/
def pathOkB (p : GoStr) : Bool := (splitOnChar '.' p).all segOkB

theorem walkSegs_ok : ∀ (segs : List GoStr) (cur : GoVal),
    (∀ seg ∈ segs, segOkB seg = true) → (walkSegs segs cur).isSome = true := by
  intro segs
  induction segs with
  | nil => intro cur h; rfl
  | cons seg rest ih =>
    intro cur h
    have hrest : ∀ s ∈ rest, segOkB s = true := fun s hs => h s (by simp [hs])
    have hseg := h seg (by simp)
    by_cases hb : '[' ∈ seg
    · simp only [segOkB, if_pos hb] at hseg
      cases hp : parseIdxSeg seg with
      | none => rw [hp] at hseg; simp at hseg
      | some pr =>
        rw [hp] at hseg
        simp only [decide_eq_true_eq] at hseg
        simp only [walkSegs, hb, if_true, hp]
        split
        · next arr heq =>
          rw [if_neg (by omega)]
          split
          · exact ih _ hrest
          · rfl
        · next hnl => exact ih _ hrest
    · simp only [walkSegs, hb, if_false]
      cases cur with
      | goMap m => exact ih _ hrest
      | goNil => rfl
      | goBool b => rfl
      | goInt64 i => rfl
      | goUInt64 n => rfl
      | goInt i => rfl
      | goInt32 i => rfl
      | goUInt n => rfl
      | goUInt32 n => rfl
      | goFloat q => rfl
      | goStr s => rfl
      | goList xs => rfl

theorem getValueByPath_ok {p : GoStr} (data : List (GoStr × GoVal))
    (h : pathOkB p = true) : (getValueByPath p data).isSome = true := by
  unfold getValueByPath
  exact walkSegs_ok _ _ (by simpa [pathOkB, List.all_eq_true] using h)

theorem lookup_storeSet_same (w : VarStore) (k : GoStr) (v : GoVal) :
    lookupStr (storeSet w k v) k = some v := by
  induction w with
  | nil => simp [storeSet, lookupStr]
  | cons p r ih =>
    obtain ⟨k', w'⟩ := p
    by_cases hk : k' = k
    · simp [storeSet, hk, lookupStr]
    · simp [storeSet, hk, lookupStr, ih]

theorem lookup_storeSet_other (w : VarStore) {k k' : GoStr} (v : GoVal) (h : k' ≠ k) :
    lookupStr (storeSet w k' v) k = lookupStr w k := by
  induction w with
  | nil => simp [storeSet, lookupStr, h]
  | cons p r ih =>
    obtain ⟨k1, w1⟩ := p
    by_cases hk : k1 = k'
    · subst hk
      simp only [storeSet, if_pos rfl, lookupStr]
      rw [if_neg h, if_neg h]
    · simp only [storeSet, if_neg hk, lookupStr]
      by_cases hk2 : k1 = k
      · rw [if_pos hk2, if_pos hk2]
      · rw [if_neg hk2, if_neg hk2, ih]

theorem saveVariables_untouched :
    ∀ (save : List (GoStr × GoStr)) (d : List (GoStr × GoVal)) (w w' : VarStore) (n : GoStr),
    (∀ q ∈ save, q.1 ≠ n) → saveVariables save d w = some w' →
    lookupStr w' n = lookupStr w n := by
  intro save
  induction save with
  | nil => intro d w w' n _ h; injection h with h; rw [h]
  | cons q rest ih =>
    intro d w w' n hne h
    obtain ⟨n1, p1⟩ := q
    simp only [saveVariables] at h
    cases hg : getValueByPath p1 d with
    | none => rw [hg] at h; exact absurd h (by simp)
    | some v =>
      rw [hg] at h
      have := ih d (storeSet w n1 v) w' n (fun q hq => hne q (by simp [hq])) h
      rw [this, lookup_storeSet_other w v (hne (n1, p1) (by simp))]

theorem saveVariables_isSome :
    ∀ (save : List (GoStr × GoStr)) (d : List (GoStr × GoVal)) (w : VarStore),
    (∀ q ∈ save, pathOkB q.2 = true) → (saveVariables save d w).isSome = true := by
  intro save
  induction save with
  | nil => intro d w _; rfl
  | cons q rest ih =>
    intro d w h
    obtain ⟨n1, p1⟩ := q
    simp only [saveVariables]
    cases hg : getValueByPath p1 d with
    | none =>
      exfalso
      have := getValueByPath_ok d (h (n1, p1) (by simp))
      rw [hg] at this
      simp at this
    | some v => exact ih d (storeSet w n1 v) (fun q hq => h q (by simp [hq]))

/-- The binding a capture entry makes: the entry's path value, with
every later entry's name distinct. -/
theorem saveVariables_binds :
    ∀ (save : List (GoStr × GoStr)) (d : List (GoStr × GoVal)) (w w' : VarStore)
    (n : GoStr) (p : GoStr) (v : GoVal),
    (n, p) ∈ save → (save.map Prod.fst).Nodup →
    getValueByPath p d = some v →
    saveVariables save d w = some w' →
    lookupStr w' n = some v := by
  intro save
  induction save with
  | nil => intro d w w' n p v h; simp at h
  | cons q rest ih =>
    intro d w w' n p v hmem hnd hv h
    obtain ⟨n1, p1⟩ := q
    simp only [saveVariables] at h
    simp only [List.map_cons, List.nodup_cons] at hnd
    rcases List.mem_cons.mp hmem with heq | hmem'
    · injection heq with he1 he2
      subst he1; subst he2
      rw [hv] at h
      have hrest : ∀ q ∈ rest, q.1 ≠ n := by
        intro q hq he
        exact hnd.1 (he ▸ List.mem_map_of_mem Prod.fst hq)
      rw [saveVariables_untouched rest d _ w' n hrest h]
      exact lookup_storeSet_same w n v
    · cases hg : getValueByPath p1 d with
      | none => rw [hg] at h; exact absurd h (by simp)
      | some v1 =>
        rw [hg] at h
        exact ih d (storeSet w n1 v1) w' n p v hmem' hnd.2 hv h

/-! ## Validation totality lemmas -/

theorem executeAssertion_isSome (gen : Nat → GoStr) (vars : VarStore) (a : AssertionCfg)
    (data : List (GoStr × GoVal)) (c : Nat) (h : pathOkB a.path = true) :
    (executeAssertion gen vars a data c).isSome = true := by
  unfold executeAssertion
  cases hg : getValueByPath a.path data with
  | none =>
    exfalso
    have := getValueByPath_ok data h
    rw [hg] at this
    simp at this
  | some v => rfl

theorem runAssertions_isSome (gen : Nat → GoStr) (vars : VarStore) :
    ∀ (asrts : List AssertionCfg) (data : List (GoStr × GoVal)) (c : Nat),
    (∀ a ∈ asrts, pathOkB a.path = true) →
    (runAssertions gen vars asrts data c).isSome = true := by
  intro asrts
  induction asrts with
  | nil => intro data c _; rfl
  | cons a rest ih =>
    intro data c h
    simp only [runAssertions]
    cases he : executeAssertion gen vars a data c with
    | none =>
      exfalso
      have := executeAssertion_isSome gen vars a data c (h a (by simp))
      rw [he] at this
      simp at this
    | some pr =>
      obtain ⟨e, c'⟩ := pr
      cases e with
      | none => exact ih data c' (fun x hx => h x (by simp [hx]))
      | some msg => rfl

theorem validateExpectation_isSome (gen : Nat → GoStr) (vars : VarStore) (e : ExpectCfg)
    (st : Int) (data : List (GoStr × GoVal)) (c : Nat)
    (h : ∀ a ∈ e.assertions, pathOkB a.path = true) :
    (validateExpectation gen vars e st data c).isSome = true := by
  unfold validateExpectation
  split
  · rfl
  · cases hc : checkRespBody e.responseBody data with
    | none => exact runAssertions_isSome gen vars e.assertions data c h
    | some msg => rfl

/-! ## Runner glue lemmas -/

theorem isDependencyPassed_false {results : List ResultRec} {d : GoStr}
    (h : (∀ r ∈ results, r.name ≠ d) ∨ (∀ r ∈ results, r.name = d → r.passed = false)) :
    isDependencyPassed results d = false := by
  induction results with
  | nil => rfl
  | cons r rest ih =>
    simp only [isDependencyPassed]
    by_cases hn : r.name = d
    · rw [if_pos hn]
      rcases h with h | h
      · exact absurd hn (h r (by simp))
      · exact h r (by simp) hn
    · rw [if_neg hn]
      apply ih
      rcases h with h | h
      · exact Or.inl fun x hx => h x (by simp [hx])
      · exact Or.inr fun x hx => h x (by simp [hx])

/-- In the absence of a dependency gate, the runner's trace is exactly
the retry loop's trace, whatever the decode and validation outcomes. -/
theorem runTestCase_trace (gen : Nat → GoStr) (baseURL : GoStr) (vars : VarStore)
    (results : List ResultRec) (scenario : GoStr) (tc : TestCaseCfg)
    (transport : Nat → TransportRes) (c : Nat)
    (hd : tc.dependsOn = []) :
    (runTestCase gen baseURL vars results scenario tc transport c).2 =
    (attemptLoop gen baseURL vars tc.request transport (intervalOf tc)
      (retryTimesOf tc).toNat 0 (buildRequest gen baseURL vars tc.request c).1
      (buildRequest gen baseURL vars tc.request c).2).2.2.2 := by
  simp only [runTestCase]
  rw [if_neg (by simp [hd])]
  repeat (first | rfl | split)

/-! ## Claims

One theorem per claim, with its witness and, for corrected claims, the
counterexample refuting the claim as frozen. -/

/-- A concrete brace-free generator standing in for `uuid.New`. -/
def genU : Nat → GoStr := fun _ => str "u0"

/-- A store with a two-variable placeholder cycle: substituting either
variable's placeholder re-creates the other's. -/
def cycleVars : VarStore :=
  [(str "a", goStr (pl (str "b"))), (str "b", goStr (pl (str "a")))]

/-- C1 (amended).  For a structured request body field whose string
value is exactly one placeholder of an identifier-shaped name (nonempty,
no braces, no whitespace) bound in the Variable Store, and a store none
of whose values stringify to text containing a brace (so substitution
cannot re-create a placeholder), `replaceMapVariables` produces that
field with the variable's stored value itself — kind included. -/
theorem C1_whole_field_placeholder_preserves_stored_value
    (gen : Nat → GoStr) (vars : VarStore) (body : List (GoStr × GoVal))
    (c : Nat) (k name : GoStr) (v : GoVal)
    (hg : genSane gen) (hn : identLike name) (hs : storeSane vars)
    (hv : lookupStr vars name = some v)
    (hb : lookupStr body k = some (goStr (pl name))) :
    lookupStr (replaceMapVariables gen vars body c).1 k = some v := by
  obtain ⟨c', hc'⟩ := replaceMapVariables_lookup gen vars body c k _ hb
  rw [hc']
  simp only [replaceBodyValue]
  rw [resolveStringField_pl hg hn hs hv]

/-- C1 counterexample.  The claim as frozen quantifies over every store
binding: with the cyclic store `a = "\x7b\x7bb\x7d\x7d"`,
`b = "\x7b\x7ba\x7d\x7d"` and the field `"\x7b\x7ba\x7d\x7d"`,
substitution runs `a` then `b` and reproduces the original text, so the
change check fails and the field keeps the replaced string — not the
value stored under `a`. -/
theorem C1_counterexample :
    (replaceMapVariables genU cycleVars [(str "f", goStr (pl (str "a")))] 0).1
      = [(str "f", goStr (pl (str "a")))] ∧
    lookupStr cycleVars (str "a") = some (goStr (pl (str "b"))) ∧
    pl (str "a") ≠ pl (str "b") := by
  refine ⟨rfl, rfl, ?_⟩
  decide

/-- C1 witness: the spec's own regression value, an `order_id` bound to
the big integer, round-trips through a whole-field placeholder with its
`int64` kind intact. -/
theorem C1_witness :
    lookupStr (replaceMapVariables genU [(str "order_id", goInt64 123456789012345)]
      [(str "f", goStr (pl (str "order_id")))] 0).1 (str "f")
      = some (goInt64 123456789012345) :=
  C1_whole_field_placeholder_preserves_stored_value genU
    [(str "order_id", goInt64 123456789012345)]
    [(str "f", goStr (pl (str "order_id")))] 0 (str "f") (str "order_id")
    (goInt64 123456789012345)
    (fun n => by unfold genU; decide) (by decide) (by decide) rfl rfl

/-- C2 (confirmed).  In `runTestCase` (dependency gate open), only
transport-layer errors trigger a retry: the trace records at most the
configured number of attempts; when every attempt errs, exactly that
many; a first success at attempt `k` ends the loop after `k + 1` sends,
`k` sleeps of the configured interval and `k` rebuilds; every sent
request is built from the test case's request template; the attempt
count is a function of which attempts err alone, so decode errors and
assertion failures (which vary only the response content) never cause a
retry; and an absent retry policy means one attempt with no interval
and no sleeping. -/
theorem C2_retry_only_on_transport_errors
    (gen : Nat → GoStr) (baseURL : GoStr) (vars : VarStore)
    (results : List ResultRec) (scenario : GoStr) (tc : TestCaseCfg)
    (transport : Nat → TransportRes) (c : Nat)
    (hd : tc.dependsOn = []) :
    sendCount (runTestCase gen baseURL vars results scenario tc transport c).2
      ≤ (retryTimesOf tc).toNat ∧
    ((∀ j, j < (retryTimesOf tc).toNat → isTerrB (transport j) = true) →
      sendCount (runTestCase gen baseURL vars results scenario tc transport c).2
        = (retryTimesOf tc).toNat) ∧
    (∀ k, k < (retryTimesOf tc).toNat → (∀ j, j < k → isTerrB (transport j) = true) →
      isTerrB (transport k) = false →
      sendCount (runTestCase gen baseURL vars results scenario tc transport c).2 = k + 1 ∧
      sleepCount (runTestCase gen baseURL vars results scenario tc transport c).2 = k ∧
      rebuildCount (runTestCase gen baseURL vars results scenario tc transport c).2 = k) ∧
    (∀ ms, Ev.sleepEv ms ∈ (runTestCase gen baseURL vars results scenario tc transport c).2 →
      ms = intervalOf tc) ∧
    (∀ j r, Ev.sendEv j r ∈ (runTestCase gen baseURL vars results scenario tc transport c).2 →
      ∃ c', r = (buildRequest gen baseURL vars tc.request c').1) ∧
    (∀ transport' : Nat → TransportRes,
      (∀ n, isTerrB (transport' n) = isTerrB (transport n)) →
      sendCount (runTestCase gen baseURL vars results scenario tc transport' c).2
        = sendCount (runTestCase gen baseURL vars results scenario tc transport c).2) ∧
    (tc.retry = none → retryTimesOf tc = 1 ∧ intervalOf tc = 0 ∧
      sleepCount (runTestCase gen baseURL vars results scenario tc transport c).2 = 0) := by
  rw [runTestCase_trace gen baseURL vars results scenario tc transport c hd]
  refine ⟨?_, ?_, ?_, ?_, ?_, ?_, ?_⟩
  · exact attemptLoop_sendBound gen baseURL vars tc.request transport (intervalOf tc) _ 0 _ _
  · intro h
    exact (attemptLoop_allErr gen baseURL vars tc.request transport (intervalOf tc) _ 0 _ _
      (fun j hj => by simpa using h j hj)).2.1
  · intro k hk herr hok
    obtain ⟨-, -, h3, h4, h5⟩ := attemptLoop_firstOk gen baseURL vars tc.request transport
      (intervalOf tc) k (retryTimesOf tc).toNat 0 _ _ hk
      (fun j hj => by simpa using herr j hj) (by simpa using hok)
    exact ⟨h3, h4, h5⟩
  · intro ms h
    exact attemptLoop_sleepVal gen baseURL vars tc.request transport (intervalOf tc) _ 0 _ _ ms h
  · intro j r h
    exact attemptLoop_sendFresh gen baseURL vars tc.request transport (intervalOf tc) _ 0 _ _
      ⟨c, rfl⟩ j r h
  · intro transport' hsame
    rw [runTestCase_trace gen baseURL vars results scenario tc transport' c hd]
    exact attemptLoop_errPattern gen baseURL vars tc.request transport (intervalOf tc)
      transport' hsame _ 0 _ _ _ _
  · intro h
    refine ⟨by simp [retryTimesOf, h], by simp [intervalOf, h], ?_⟩
    have hone : (retryTimesOf tc).toNat = 1 := by simp [retryTimesOf, h]
    rw [hone]
    cases htr : transport 0 with
    | tok resp =>
      rw [attemptLoop_one_tok gen baseURL vars tc.request transport (intervalOf tc) htr _ _]
      rfl
    | terr m =>
      rw [attemptLoop_one_terr gen baseURL vars tc.request transport (intervalOf tc) htr _ _]
      rfl

/-- A retry policy of three attempts with a 50 millisecond interval. -/
def tcRetry3 : TestCaseCfg :=
  { name := str "t", dependsOn := [],
    request := { method := str "GET", path := str "/x", headers := [], body := none, query := [] },
    expect := { statusCode := 0, responseBody := [], assertions := [] },
    save := [], retry := some { times := 3, interval := 50 } }

/-- A transport that errs on the first two attempts and answers on the
third. -/
def failTwiceTransport : Nat → TransportRes :=
  fun i => if i < 2 then .terr (str "conn refused")
    else .tok { statusCode := 200, raw := .emptyB, headers := [] }

/-- C2 witness: three configured attempts against a transport that errs
twice then succeeds give exactly three sends. -/
theorem C2_witness :
    sendCount (runTestCase genU [] [] [] (str "s") tcRetry3 failTwiceTransport 0).2 = 2 + 1 :=
  ((C2_retry_only_on_transport_errors genU [] [] [] (str "s") tcRetry3
    failTwiceTransport 0 rfl).2.2.1 2 (by decide)
    (fun j hj => by interval_cases j <;> rfl) (by rfl)).1

/-- The specification's example tree `a` maps to `b` maps to the list
`1, 2, 3`. -/
def exampleTree : List (GoStr × GoVal) :=
  [(str "a", goMap [(str "b", goList [goInt64 1, goInt64 2, goInt64 3])])]

/-- C3 (amended).  `getValueByPath` walks segments left to right; on the
specification's tree, `a.b[1]` yields `2` and `a.b[5]` and `a.c` yield
absent.  A missing key or a wrong-kind key segment yields absent and an
out-of-range index yields absent; but an indexed segment whose keyed
value is not a list keeps that value and walks on, ignoring the index
(rather than yielding absent), and resolution is crash-free only for
paths whose bracketed segments are well formed with a non-negative
index. -/
theorem C3_path_resolution_semantics :
    getValueByPath (str "a.b[1]") exampleTree = some (goInt64 2) ∧
    getValueByPath (str "a.b[5]") exampleTree = some goNil ∧
    getValueByPath (str "a.c") exampleTree = some goNil ∧
    (∀ (m : List (GoStr × GoVal)) (seg : GoStr) (rest : List GoStr) (a ip : GoStr) (v : GoVal),
      '[' ∈ seg → parseIdxSeg seg = some (a, ip) →
      lookupStr m a = some v → (∀ xs, v ≠ goList xs) →
      walkSegs (seg :: rest) (goMap m) = walkSegs rest v) ∧
    (∀ (m : List (GoStr × GoVal)) (seg : GoStr) (rest : List GoStr) (a ip : GoStr)
      (arr : List GoVal),
      '[' ∈ seg → parseIdxSeg seg = some (a, ip) →
      lookupStr m a = some (goList arr) →
      0 ≤ (sscanfD ip).getD 0 → (arr.length : Int) ≤ (sscanfD ip).getD 0 →
      walkSegs (seg :: rest) (goMap m) = some goNil) ∧
    (∀ (p : GoStr) (data : List (GoStr × GoVal)), pathOkB p = true →
      (getValueByPath p data).isSome = true) := by
  refine ⟨rfl, rfl, rfl, ?_, ?_, ?_⟩
  · intro m seg rest a ip v hb hp hl hv
    cases v with
    | goList xs => exact absurd rfl (hv xs)
    | goNil => simp only [walkSegs, hb, if_true, hp, hl, Option.getD_some]
    | goBool b => simp only [walkSegs, hb, if_true, hp, hl, Option.getD_some]
    | goInt64 i => simp only [walkSegs, hb, if_true, hp, hl, Option.getD_some]
    | goUInt64 n => simp only [walkSegs, hb, if_true, hp, hl, Option.getD_some]
    | goInt i => simp only [walkSegs, hb, if_true, hp, hl, Option.getD_some]
    | goInt32 i => simp only [walkSegs, hb, if_true, hp, hl, Option.getD_some]
    | goUInt n => simp only [walkSegs, hb, if_true, hp, hl, Option.getD_some]
    | goUInt32 n => simp only [walkSegs, hb, if_true, hp, hl, Option.getD_some]
    | goFloat q => simp only [walkSegs, hb, if_true, hp, hl, Option.getD_some]
    | goStr s => simp only [walkSegs, hb, if_true, hp, hl, Option.getD_some]
    | goMap m2 => simp only [walkSegs, hb, if_true, hp, hl, Option.getD_some]
  · intro m seg rest a ip arr hb hp hl h0 hlen
    simp only [walkSegs, hb, if_true, hp, hl, Option.getD_some]
    rw [if_neg (by omega)]
    rw [dif_neg (by omega)]
  · intro p data h
    exact getValueByPath_ok data h

/-- C3 counterexample.  The claim as frozen says an indexed segment that
does not name a list yields absent; on `\x7b"b": 5\x7d` the path `b[0]`
returns `5`, the keyed value itself, with the index ignored. -/
theorem C3_counterexample :
    getValueByPath (str "b[0]") [(str "b", goInt64 5)] = some (goInt64 5) ∧
    some (goInt64 5) ≠ some goNil := by
  refine ⟨rfl, ?_⟩
  simp

/-- C3 witness: the general clauses applied at concrete inputs — an
indexed segment over a non-list continues with that value, and an
out-of-range index yields absent. -/
theorem C3_witness :
    walkSegs [str "b[0]"] (goMap [(str "b", goInt64 5)]) = walkSegs [] (goInt64 5) ∧
    walkSegs [str "b[7]"] (goMap [(str "b", goList [goInt64 1])]) = some goNil := by
  constructor
  · exact C3_path_resolution_semantics.2.2.2.1 [(str "b", goInt64 5)] (str "b[0]") []
      (str "b") (str "0") (goInt64 5) (by decide) rfl rfl (fun xs h => by cases h)
  · exact C3_path_resolution_semantics.2.2.2.2.1 [(str "b", goList [goInt64 1])] (str "b[7]") []
      (str "b") (str "7") [goInt64 1] (by decide) rfl rfl (by decide) (by decide)

/-- C4 (amended).  List elements do not get the type-preserving store
tier (the source's list arm never consults `extractVarName`); what
survives is the claim's `int64` instance, and only through the numeric
reparse heuristic: a whole-element placeholder of an identifier-shaped
name (other than the reserved generator) bound to an in-range `int64`
in a sane store resolves to that `int64` element, because scanning the
substituted decimal text reproduces the value. -/
theorem C4_list_element_int64_roundtrip
    (gen : Nat → GoStr) (vars : VarStore) (body : List (GoStr × GoVal))
    (c : Nat) (k name : GoStr) (xs : List GoVal) (pos : Nat) (i : Int)
    (hn : identLike name) (hu : name ≠ str "uuid")
    (hs : storeSane vars) (hv : lookupStr vars name = some (goInt64 i))
    (hrange : inInt64Range i)
    (hb : lookupStr body k = some (goList xs))
    (he : xs[pos]? = some (goStr (pl name))) :
    ∃ ys, lookupStr (replaceMapVariables gen vars body c).1 k = some (goList ys) ∧
      ys[pos]? = some (goInt64 i) := by
  obtain ⟨c', hc'⟩ := replaceMapVariables_lookup gen vars body c k _ hb
  simp only [replaceBodyValue] at hc'
  refine ⟨(resolveListElems gen vars xs c').1, hc', ?_⟩
  obtain ⟨c'', hc''⟩ := resolveListElems_get gen vars xs c' pos _ he
  rw [hc'']
  rw [replaceVariables_pl_eq hn.2.1 hu hs hv]
  have hbf : braceFree (strValue (goInt64 i)) = true := braceFree_intStr i
  have hneq : strValue (goInt64 i) ≠ pl name := by
    intro heq
    rw [heq] at hbf
    exact (braceFree_not_mem hbf).1 (lbChar_mem_pl name)
  unfold resolveListElem
  rw [if_pos ⟨hneq, by simpa [strValue] using isNumericString_intStr i⟩]
  rw [show strValue (goInt64 i) = intStr i from rfl, parseNumber_intStr hrange]

/-- C4 counterexample.  The claim as frozen promises the stored value
with its kind preserved for every bound variable: binding `x` to the
string `"007"` and resolving the list element
`"\x7b\x7bx\x7d\x7d"` produces the `int64` `7` — a different value of a
different kind — because the list arm only has the numeric-reparse and
textual tiers. -/
theorem C4_counterexample :
    (replaceMapVariables genU [(str "x", goStr (str "007"))]
      [(str "lst", goList [goStr (pl (str "x"))])] 0).1
      = [(str "lst", goList [goInt64 7])] ∧
    lookupStr [(str "x", goStr (str "007"))] (str "x") = some (goStr (str "007")) ∧
    goKind (goInt64 7) ≠ goKind (goStr (str "007")) := by
  refine ⟨rfl, rfl, by decide⟩

/-- C4 witness: the `order_id` regression value round-trips as an
`int64` list element. -/
theorem C4_witness :
    ∃ ys, lookupStr (replaceMapVariables genU [(str "order_id", goInt64 123456789012345)]
      [(str "lst", goList [goStr (pl (str "order_id"))])] 0).1 (str "lst")
      = some (goList ys) ∧ ys[0]? = some (goInt64 123456789012345) :=
  C4_list_element_int64_roundtrip genU [(str "order_id", goInt64 123456789012345)]
    [(str "lst", goList [goStr (pl (str "order_id"))])] 0 (str "lst") (str "order_id")
    [goStr (pl (str "order_id"))] 0 123456789012345
    (by decide) (by decide) (by decide) rfl
    (by decide) rfl rfl

/-- C5 (amended).  A request body string field that mixes literal text
with placeholders (so it is not one whole-field placeholder) resolves
textually and stays a string whenever the substituted text is not
syntactically numeric; the frozen claim's stronger promise — a string
regardless — fails, because the numeric-reparse fallback also applies
to mixed fields whose substituted text happens to look numeric. -/
theorem C5_mixed_field_stays_string_when_not_numeric
    (gen : Nat → GoStr) (vars : VarStore) (body : List (GoStr × GoVal))
    (c : Nat) (k : GoStr) (s : GoStr)
    (hb : lookupStr body k = some (goStr s))
    (hx : extractVarName s = [])
    (hnum : ∀ c0, isNumericString ((replaceVariables gen vars s c0).1) = false) :
    ∃ c', lookupStr (replaceMapVariables gen vars body c).1 k
      = some (goStr ((replaceVariables gen vars s c').1)) := by
  obtain ⟨c', hc'⟩ := replaceMapVariables_lookup gen vars body c k _ hb
  refine ⟨c', ?_⟩
  rw [hc']
  simp only [replaceBodyValue]
  unfold resolveStringField
  by_cases he : (replaceVariables gen vars s c').1 = s
  · rw [if_pos he]
  · rw [if_neg he, hx]
    simp only [ne_eq, not_true_eq_false, if_false, hnum c', Bool.false_eq_true]

/-- C5 counterexample.  The field `"1\x7b\x7bx\x7d\x7d"` mixes a literal
digit with a placeholder; with `x` bound to the `int64` `23` the
substituted text `"123"` is syntactically numeric, so the engine
reparses the mixed field into the `int64` `123` — not a string. -/
theorem C5_counterexample :
    (replaceMapVariables genU [(str "x", goInt64 23)]
      [(str "f", goStr ('1' :: pl (str "x")))] 0).1
      = [(str "f", goInt64 123)] ∧
    goKind (goInt64 123) ≠ GoKind.kStr := by
  refine ⟨rfl, by decide⟩

/-- C5 witness: `"id-\x7b\x7buser_id\x7d\x7d"` with `user_id` bound to
an `int64` resolves to the string `"id-99"`. -/
theorem C5_witness :
    ∃ c', lookupStr (replaceMapVariables genU [(str "user_id", goInt64 99)]
      [(str "f", goStr (str "id-" ++ pl (str "user_id")))] 0).1 (str "f")
      = some (goStr ((replaceVariables genU [(str "user_id", goInt64 99)]
          (str "id-" ++ pl (str "user_id")) c').1)) :=
  C5_mixed_field_stays_string_when_not_numeric genU [(str "user_id", goInt64 99)]
    [(str "f", goStr (str "id-" ++ pl (str "user_id")))] 0 (str "f")
    (str "id-" ++ pl (str "user_id")) rfl (by decide)
    (fun c0 => rfl)

/-- C6 (confirmed).  A test case naming a dependency finds either no
result of that name, or only failed ones: `runTestCase` returns a
failed result carrying the dependency error, leaves the store and
counter untouched, and records no transport call at all. -/
theorem C6_dependency_gate_blocks_before_transport
    (gen : Nat → GoStr) (baseURL : GoStr) (vars : VarStore)
    (results : List ResultRec) (scenario : GoStr) (tc : TestCaseCfg)
    (transport : Nat → TransportRes) (c : Nat)
    (hne : tc.dependsOn ≠ [])
    (hdep : (∀ r ∈ results, r.name ≠ tc.dependsOn) ∨
            (∀ r ∈ results, r.name = tc.dependsOn → r.passed = false)) :
    runTestCase gen baseURL vars results scenario tc transport c =
      (some ({ scenario := scenario, name := tc.name, passed := false,
               error := depMsg tc.dependsOn, response := none }, vars, c), []) ∧
    sendCount (runTestCase gen baseURL vars results scenario tc transport c).2 = 0 := by
  have hf := isDependencyPassed_false hdep
  have heq : runTestCase gen baseURL vars results scenario tc transport c =
      (some ({ scenario := scenario, name := tc.name, passed := false,
               error := depMsg tc.dependsOn, response := none }, vars, c), []) := by
    unfold runTestCase
    rw [if_pos ⟨hne, by simp [hf]⟩]
  exact ⟨heq, by rw [heq]; rfl⟩

/-- A case depending on a case named `X`. -/
def tcDependsOnX : TestCaseCfg :=
  { name := str "t", dependsOn := str "X",
    request := { method := str "GET", path := str "/x", headers := [], body := none, query := [] },
    expect := { statusCode := 0, responseBody := [], assertions := [] },
    save := [], retry := none }

/-- C6 witness: with an empty result accumulator, the dependent case
fails with the dependency error and zero transport calls. -/
theorem C6_witness :
    runTestCase genU [] [] [] (str "s") tcDependsOnX
      (fun _ => .tok { statusCode := 200, raw := .emptyB, headers := [] }) 0 =
      (some ({ scenario := str "s", name := str "t", passed := false,
               error := depMsg (str "X"), response := none }, [], 0), []) ∧
    sendCount (runTestCase genU [] [] [] (str "s") tcDependsOnX
      (fun _ => .tok { statusCode := 200, raw := .emptyB, headers := [] }) 0).2 = 0 :=
  C6_dependency_gate_blocks_before_transport genU [] [] [] (str "s") tcDependsOnX
    (fun _ => .tok { statusCode := 200, raw := .emptyB, headers := [] }) 0
    (by decide) (Or.inl fun r hr => by simp at hr)

/-- C7 (amended).  The `equals` and `notEquals` operators coerce across
numeric subtypes before any textual fallback (`valuesEqual` compares two
coercible values by their `int64` images), and on the claim's instance
the partial-field check agrees: an actual `int64` `5` passes against an
expected `float64` `5` and against `"5"` at both sites.  But the
partial-field `response_body` check itself compares stringifications
only — it does not coerce, as `"5.0"` against `5` shows. -/
theorem C7_equality_coercion_sites :
    (∀ (v w : GoVal) (i j : Int), goKind v ≠ goKind w →
      toInt64 v = some i → toInt64 w = some j →
      (valuesEqual v w = true ↔ i = j)) ∧
    applyOp (str "equals") (goInt64 5) (goFloat 5) = none ∧
    applyOp (str "equals") (goInt64 5) (goStr (str "5")) = none ∧
    applyOp (str "equals") (goInt64 5) (goStr (str "5.0")) = none ∧
    checkRespBody [(str "count", goFloat 5)] [(str "count", goInt64 5)] = none ∧
    checkRespBody [(str "count", goStr (str "5"))] [(str "count", goInt64 5)] = none ∧
    checkRespBody [(str "count", goStr (str "5.0"))] [(str "count", goInt64 5)]
      = some (str "field mismatch") := by
  refine ⟨?_, rfl, rfl, rfl, rfl, rfl, rfl⟩
  intro v w i j hk hi hj
  unfold valuesEqual
  rw [if_neg hk, hi, hj]
  simp

/-- C7 counterexample.  The frozen claim says the `response_body`
partial-field check coerces across numeric subtypes before falling back
to string comparison; but with actual `int64` `5` and expected `"5.0"`
the numeric coercion of `valuesEqual` accepts while the partial-field
check — string comparison only — rejects. -/
theorem C7_counterexample :
    valuesEqual (goInt64 5) (goStr (str "5.0")) = true ∧
    validateExpectation genU []
      { statusCode := 0, responseBody := [(str "count", goStr (str "5.0"))], assertions := [] }
      200 [(str "count", goInt64 5)] 0 = some (some (str "field mismatch"), 0) := by
  exact ⟨rfl, rfl⟩

/-- C7 witness: the general coercion clause applied to `int64` `5`
against `float64` `5`. -/
theorem C7_witness :
    valuesEqual (goInt64 5) (goFloat 5) = true ↔ (5 : Int) = 5 :=
  C7_equality_coercion_sites.1 (goInt64 5) (goFloat 5) 5 5 (by decide) rfl (by decide)

/-- C8 (confirmed).  `valuesEqual` is symmetric for all values, and for
two values of the same scalar runtime kind (null, bool, every integer
breadth, float, string) it agrees with direct value equality. -/
theorem C8_valuesEqual_symmetric_and_kind_consistent (a b : GoVal) :
    valuesEqual a b = valuesEqual b a ∧
    (goKind a = goKind b → scalarKind (goKind a) = true →
      (valuesEqual a b = true ↔ a = b)) := by
  refine ⟨valuesEqual_symm a b, fun hk hs => ?_⟩
  unfold valuesEqual
  rw [if_pos hk]
  rw [decide_eq_true_eq]
  exact goSprint_inj_scalar a b hk hs

/-- C8 witness: symmetry at mixed kinds and kind-consistent equality at
two `int64` values. -/
theorem C8_witness :
    valuesEqual (goInt64 5) (goFloat 5) = valuesEqual (goFloat 5) (goInt64 5) ∧
    (valuesEqual (goInt64 5) (goInt64 6) = true ↔ goInt64 5 = goInt64 6) :=
  ⟨(C8_valuesEqual_symmetric_and_kind_consistent (goInt64 5) (goFloat 5)).1,
   (C8_valuesEqual_symmetric_and_kind_consistent (goInt64 5) (goInt64 6)).2 rfl (by decide)⟩

/-- A test case whose retry policy configures zero attempts. -/
def tcTimesZero : TestCaseCfg :=
  { name := str "t", dependsOn := [],
    request := { method := str "GET", path := str "/x", headers := [], body := none, query := [] },
    expect := { statusCode := 0, responseBody := [], assertions := [] },
    save := [], retry := some { times := 0, interval := 0 } }

/-- C9 (amended).  `runTestCase` returns a result — it cannot reach the
nil-response dereference — whenever the effective attempt count is at
least one and the configured assertion and capture paths are well
formed (bracketed segments close and scan to a non-negative index); the
frozen claim's totality over `Times ≤ 0` fails, as the counterexample
shows. -/
theorem C9_total_when_attempts_positive
    (gen : Nat → GoStr) (baseURL : GoStr) (vars : VarStore)
    (results : List ResultRec) (scenario : GoStr) (tc : TestCaseCfg)
    (transport : Nat → TransportRes) (c : Nat)
    (hr : 1 ≤ retryTimesOf tc)
    (ha : ∀ a ∈ tc.expect.assertions, pathOkB a.path = true)
    (hsv : ∀ q ∈ tc.save, pathOkB q.2 = true) :
    ((runTestCase gen baseURL vars results scenario tc transport c).1).isSome = true := by
  have hfuel : 1 ≤ (retryTimesOf tc).toNat := by omega
  have hpos := attemptLoop_posFuel gen baseURL vars tc.request transport (intervalOf tc)
    (retryTimesOf tc).toNat 0 (buildRequest gen baseURL vars tc.request c).1
    (buildRequest gen baseURL vars tc.request c).2 hfuel
  simp only [runTestCase]
  split
  · rfl
  · split
    · rfl
    · next herr =>
      split
      · next hresp => exact absurd ⟨hresp, herr⟩ hpos
      · next resp hresp =>
        split
        · rfl
        · rfl
        · next hraw1 hraw2 =>
          split
          · next hval =>
            exfalso
            have := validateExpectation_isSome gen vars tc.expect resp.statusCode
              (match resp.raw with | .goodB m => m | _ => [])
              ((attemptLoop gen baseURL vars tc.request transport (intervalOf tc)
                (retryTimesOf tc).toNat 0 (buildRequest gen baseURL vars tc.request c).1
                (buildRequest gen baseURL vars tc.request c).2).2.2.1) ha
            rw [hval] at this
            simp at this
          · rfl
          · next c' hval =>
            split
            · next hsave =>
              exfalso
              have := saveVariables_isSome tc.save
                (match resp.raw with | .goodB m => m | _ => []) vars hsv
              rw [hsave] at this
              simp at this
            · rfl

/-- C9 counterexample.  With `Times` zero the retry loop runs no
iteration, both the response and the error stay `nil`, and the source's
`defer resp.Body.Close()` dereferences the nil response: the model's
panic outcome. -/
theorem C9_counterexample :
    (runTestCase genU [] [] [] (str "s") tcTimesZero
      (fun _ => .tok { statusCode := 200, raw := .emptyB, headers := [] }) 0).1 = none := rfl

/-- C9 witness: a plain case with one attempt returns a result. -/
theorem C9_witness :
    ((runTestCase genU [] [] [] (str "s")
      { tcTimesZero with retry := none }
      (fun _ => .tok { statusCode := 200, raw := .emptyB, headers := [] }) 0).1).isSome = true :=
  C9_total_when_attempts_positive genU [] [] [] (str "s")
    { tcTimesZero with retry := none }
    (fun _ => .tok { statusCode := 200, raw := .emptyB, headers := [] }) 0
    (by decide) (fun a h => by simp [tcTimesZero] at h) (fun q h => by simp [tcTimesZero] at h)

/-- C10 (confirmed).  For a capture entry of a passing case whose path
resolves to `nil` — whether the path is absent from the response or
present with a `null` value, `getValueByPath` does not distinguish the
two — `saveVariables` binds the variable name to `nil` in the store,
visible to later cases; the two concrete clauses exhibit an absent path
and a present-null path resolving identically. -/
theorem C10_capture_binds_null_for_absent_path
    (save : List (GoStr × GoStr)) (d : List (GoStr × GoVal)) (vars : VarStore)
    (n p : GoStr)
    (hmem : (n, p) ∈ save) (hnd : (save.map Prod.fst).Nodup)
    (hox : ∀ q ∈ save, pathOkB q.2 = true)
    (hv : getValueByPath p d = some goNil) :
    (∃ w', saveVariables save d vars = some w' ∧ lookupStr w' n = some goNil) ∧
    getValueByPath (str "a") [] = some goNil ∧
    getValueByPath (str "a") [(str "a", goNil)] = some goNil := by
  refine ⟨?_, rfl, rfl⟩
  cases hs : saveVariables save d vars with
  | none =>
    exfalso
    have := saveVariables_isSome save d vars hox
    rw [hs] at this
    simp at this
  | some w' =>
    exact ⟨w', rfl, saveVariables_binds save d vars w' n p goNil hmem hnd hv hs⟩

/-- C10 witness: capturing the absent path `missing` binds the variable
to `nil`. -/
theorem C10_witness :
    (∃ w', saveVariables [(str "token", str "missing")] [(str "code", goInt64 0)] []
      = some w' ∧ lookupStr w' (str "token") = some goNil) ∧
    getValueByPath (str "a") [] = some goNil ∧
    getValueByPath (str "a") [(str "a", goNil)] = some goNil :=
  C10_capture_binds_null_for_absent_path [(str "token", str "missing")]
    [(str "code", goInt64 0)] [] (str "token") (str "missing")
    (by simp) (by simp) (fun q hq => by simp at hq; rw [hq]; decide) rfl
